import Mathlib

/-!
Verification of the neode query-compilation and hydration core against its
specification.  The TypeScript sources are shallowly embedded: JS objects
become association lists over an inductive value type, classes become
structures, methods become functions, thrown exceptions become either an
explicit error channel on the builder state or an Except result, and the
mutable query-builder state is threaded explicitly.
-/

namespace NeodeProof

/-! ## JavaScript values

A JS runtime value as it appears in property bags, parameter tables and
result rows.  neo4j driver Integers are tagged separately (constructor
neoInt) because the sources test for them with neo4j.isInt.  A live Node
entity passed back into a write payload is represented by its identity
(constructor nodeRef). -/

inductive JVal where
  | null
  | bool (b : Bool)
  | num (n : Int)
  | neoInt (n : Int)
  | str (s : String)
  | nodeRef (id : Int)
  | obj (fields : List (String × JVal))
  | arr (elems : List JVal)

/-- JS truthiness for the embedded values. -/
def JVal.truthy : JVal → Bool
  | .null => false
  | .bool b => b
  | .num n => n != 0
  | .neoInt _ => true
  | .str s => s != ""
  | .nodeRef _ => true
  | .obj _ => true
  | .arr _ => true

/-- First-match lookup in an association list (JS property read). -/
def objGet (fields : List (String × JVal)) (key : String) : Option JVal :=
  match fields with
  | [] => none
  | (k, v) :: rest => if k = key then some v else objGet rest key

/-- JS property assignment: replace the value in place when the key exists
(JS objects keep the original key position), otherwise append. -/
def objSet (fields : List (String × JVal)) (key : String) (value : JVal) :
    List (String × JVal) :=
  match fields with
  | [] => [(key, value)]
  | (k, v) :: rest =>
    if k = key then (k, value) :: rest else (k, v) :: objSet rest key value

/-- Object.hasOwn / hasOwnProperty on an object. -/
def objHasOwn (fields : List (String × JVal)) (key : String) : Bool :=
  (objGet fields key).isSome

/-- The JS delete operator: remove the key. -/
def objErase (fields : List (String × JVal)) (key : String) :
    List (String × JVal) :=
  match fields with
  | [] => []
  | (k, v) :: rest => if k = key then rest else (k, v) :: objErase rest key

/-- The key list of an object, in property order. -/
def objKeys (fields : List (String × JVal)) : List String := fields.map (·.1)

/-- Property read through a value that may not be an object: JS yields
undefined (here: none) for member access on non-objects. -/
def JVal.jget : JVal → String → Option JVal
  | .obj fields, key => objGet fields key
  | _, _ => none

/-- The field list of an object value (empty for non-objects). -/
def JVal.objFields : JVal → List (String × JVal)
  | .obj fields => fields
  | _ => []

end NeodeProof

namespace NeodeProof

/-! ## Decimal rendering

JS template interpolation of a number renders its decimal representation.
natRepr is that representation, built from Nat.digits so that injectivity
is provable. -/

/-- The ASCII digit character for a digit below ten. -/
def digitChar10 (d : Nat) : Char := Char.ofNat (48 + d)

/-- Decimal representation of a natural number (what a JS template literal
prints for an integer). -/
def natRepr (n : Nat) : String :=
  if n = 0 then "0" else String.mk (((Nat.digits 10 n).map digitChar10).reverse)

/-- Sorting used by JS Array.prototype.sort on label strings (ascending
lexicographic; implemented as an insertion sort so it evaluates by rfl). -/
def insertSorted (s : String) : List String → List String
  | [] => [s]
  | x :: xs => if s ≤ x then s :: x :: xs else x :: insertSorted s xs

def sortStrings (l : List String) : List String := l.foldr insertSorted []

/-! ## Schema declarations (types.ts / schemaTypes.ts shapes)

The property-schema object NodePropertyObject.  The protected flag is part
of the declared data model (spec section 3 lists the flags
primary/required/unique/indexed/hidden/readonly/protected); whether any code
reads it is exactly what claim C8 is about. -/

/-- A scalar default value (spec section 3: "optional default (literal or
zero-argument generator)"); literal defaults and generated uuids are scalar. -/
inductive JScalar where
  | null
  | bool (b : Bool)
  | num (n : Int)
  | str (s : String)
deriving DecidableEq

def JScalar.toJVal : JScalar → JVal
  | .null => .null
  | .bool b => .bool b
  | .num n => .num n
  | .str s => .str s

structure PropertySchema where
  type : String := ""
  primary : Option Bool := none
  required : Option Bool := none
  unique : Option Bool := none
  indexed : Option Bool := none
  hidden : Option Bool := none
  readonly : Option Bool := none
  protectedFlag : Option Bool := none
  defaultVal : Option JScalar := none
deriving DecidableEq

/-- A NodeProperty: either a bare type-name string or a full schema object. -/
inductive NodeProperty where
  | typeName (s : String)
  | schemaObj (p : PropertySchema)
deriving DecidableEq

/-! ## Property (src/Property.ts)

The constructor copies primary/required/unique/indexed/hidden/readonly and
the default from the schema object.  It never assigns _protected (the field
is declared but no constructor line reads schema.protected), which is why
the protected getter can only ever see _primary. -/

structure Property where
  _name : String
  _schema : PropertySchema
  _primary : Option Bool
  _required : Option Bool
  _unique : Option Bool
  _indexed : Option Bool
  _hidden : Option Bool
  _readonly : Option Bool
  _default : Option JScalar
  _exists : Option Bool
  _protected : Option Bool
deriving DecidableEq

/-- Property constructor: a bare string becomes a schema with only a type. -/
def Property.ofSchema (name : String) (schemaOrString : NodeProperty) : Property :=
  let schema : PropertySchema :=
    match schemaOrString with
    | .typeName t => { type := t }
    | .schemaObj p => p
  { _name := name
    _schema := schema
    _primary := schema.primary
    _required := schema.required
    _unique := schema.unique
    _indexed := schema.indexed
    _hidden := schema.hidden
    _readonly := schema.readonly
    _default := schema.defaultVal
    _exists := none
    _protected := none }

def Property.name (p : Property) : String := p._name

def Property.type (p : Property) : String := p._schema.type

/-- Getter primary: this._primary ?? false. -/
def Property.primary (p : Property) : Bool := p._primary.getD false

/-- Getter unique: this._unique ?? false. -/
def Property.unique (p : Property) : Bool := p._unique.getD false

/-- Getter indexed: this._indexed ?? false. -/
def Property.indexed (p : Property) : Bool := p._indexed.getD false

/-- Getter hidden: this._hidden ?? false. -/
def Property.hidden (p : Property) : Bool := p._hidden.getD false

/-- Getter readonly: this._readonly ?? false. -/
def Property.readonly (p : Property) : Bool := p._readonly.getD false

/-- Getter protected: this._primary ?? this._protected ?? false (collapsed to
its truthiness, which is how every caller consumes it). -/
def Property.protectedGet (p : Property) : Bool :=
  match p._primary with
  | some b => b
  | none => p._protected.getD false

/-- Getter shouldConvertToInteger: type === "int" || type === "integer". -/
def Property.shouldConvertToInteger (p : Property) : Bool :=
  p._schema.type == "int" || p._schema.type == "integer"

/-! ## RelationshipType (src/RelationshipType.ts) -/

inductive Direction where
  | IN
  | OUT
  | BOTH
deriving DecidableEq

/-- Cascade policy field: the source type is boolean | RelationshipCascadePolicyEnum. -/
inductive CascadeSetting where
  | boolFalse
  | boolTrue
  | detach
  | delete
deriving DecidableEq

/-- The relationship target is resolved lazily by model name (design note in
spec section 9); a direct object reference cannot occur in an inductive
embedding, so the string | Model union is represented by the name branch. -/
structure RelationshipType where
  name : String
  type : String
  relationship : String
  direction : Direction
  target : Option String
  schema : List (String × NodeProperty)
  eager : Bool
  cascade : CascadeSetting
  nodeAlias : String
  properties : List (String × Property)
deriving DecidableEq

/-- RelationshipType constructor: builds the properties map from the schema. -/
def RelationshipType.make (name type relationship : String) (direction : Direction)
    (target : Option String) (schema : List (String × NodeProperty) := [])
    (eager : Bool := false) (cascade : CascadeSetting := .boolFalse)
    (nodeAlias : String := "node") : RelationshipType :=
  { name := name
    type := type
    relationship := relationship
    direction := direction
    target := target
    schema := schema
    eager := eager
    cascade := cascade
    nodeAlias := nodeAlias
    properties := schema.map (fun kv => (kv.1, Property.ofSchema kv.1 kv.2)) }

end NeodeProof

namespace NeodeProof

/-! ## Model (src/Model.ts) and its construction from a schema object -/

/-- One entry of a model schema: either a property declaration or a
relationship-like declaration (an object whose type is one of
"relationship", "relationships", "node", "nodes"). -/
inductive SchemaEntry where
  | prop (p : NodeProperty)
  | rel (type relationship : String) (direction : Direction) (target : Option String)
      (properties : List (String × NodeProperty)) (eager : Bool)
      (cascade : CascadeSetting) (nodeAlias : String)
deriving DecidableEq

/-- A model schema: the reserved labels key is kept apart from the ordinary
entries (the constructor skips the "labels" key in its entry loop). -/
structure SchemaObject where
  labels : Option (List String) := none
  entries : List (String × SchemaEntry) := []

structure Model where
  name : String
  schema : SchemaObject
  properties : List (String × Property)
  relationships : List (String × RelationshipType)
  labels : List String
  primaryKey : String
  uniqueKeys : List String
  indexedKeys : List String
  hiddenKeys : List String
  readonlyKeys : List String

/-- Insert-or-replace for the properties map (JS Map.set). -/
def propMapSet (props : List (String × Property)) (key : String)
    (value : Property) : List (String × Property) :=
  match props with
  | [] => [(key, value)]
  | (k, v) :: rest =>
    if k = key then (k, value) :: rest else (k, v) :: propMapSet rest key value

/-- Model.addProperty: registers the Property and updates the derived
primary/unique/indexed/hidden/readonly bookkeeping. -/
def Model.addProperty (m : Model) (key : String) (schema : NodeProperty) : Model :=
  let property := Property.ofSchema key schema
  let m := { m with properties := propMapSet m.properties key property }
  let m := if property.primary then { m with primaryKey := key } else m
  let m := if property.unique || property.primary then
    { m with uniqueKeys := m.uniqueKeys ++ [key] } else m
  let m := if property.indexed then { m with indexedKeys := m.indexedKeys ++ [key] } else m
  let m := if property.hidden then { m with hiddenKeys := m.hiddenKeys ++ [key] } else m
  if property.readonly then { m with readonlyKeys := m.readonlyKeys ++ [key] } else m

/-- Insert-or-replace for the relationships map (JS Map.set). -/
def relMapSet (rels : List (String × RelationshipType)) (key : String)
    (value : RelationshipType) : List (String × RelationshipType) :=
  match rels with
  | [] => [(key, value)]
  | (k, v) :: rest =>
    if k = key then (k, value) :: rest else (k, v) :: relMapSet rest key value

/-- Model.relationship: registers a RelationshipType when the relationship
label is truthy (direction and schema are always truthy in the source). -/
def Model.addRelationship (m : Model) (name type relationship : String)
    (direction : Direction) (target : Option String)
    (schema : List (String × NodeProperty)) (eager : Bool)
    (cascade : CascadeSetting) (nodeAlias : String) : Model :=
  if relationship ≠ "" then
    let rel := RelationshipType.make name type relationship direction target
      schema eager cascade nodeAlias
    { m with relationships := relMapSet m.relationships name rel }
  else m

/-- The Model constructor: default labels [name] and primary key
name.toLowerCase() ++ "_id", then setLabels from the schema when present,
then one addProperty/relationship call per schema entry. -/
def Model.ofSchema (name : String) (schema : SchemaObject) : Model :=
  let base : Model :=
    { name := name
      schema := schema
      properties := []
      relationships := []
      labels := [name]
      primaryKey := name.toLower ++ "_id"
      uniqueKeys := []
      indexedKeys := []
      hiddenKeys := []
      readonlyKeys := [] }
  let base := match schema.labels with
    | some ls => { base with labels := sortStrings ls }
    | none => base
  schema.entries.foldl (fun m kv =>
    match kv.2 with
    | .prop p => m.addProperty kv.1 p
    | .rel type relationship direction target properties eager cascade nodeAlias =>
      m.addRelationship kv.1 type relationship direction target properties
        eager cascade nodeAlias) base

/-- Getter eager: the relationship values whose eager flag is set. -/
def Model.eager (m : Model) : List RelationshipType :=
  (m.relationships.map (·.2)).filter (·.eager)

/-- Getter mergeFields: this._unique.concat(this._indexed). -/
def Model.mergeFields (m : Model) : List String := m.uniqueKeys ++ m.indexedKeys

/-! ## Neode registry (src/Neode.ts, ModelMap.ts) -/

structure Neode where
  models : List (String × Model)

/-- ModelMap.get. -/
def Neode.modelLookup (n : Neode) (name : String) : Option Model :=
  (n.models.find? (fun kv => kv.1 == name)).map (·.2)

/-- Neode.model(name): returns the registered model or throws
"Couldn't find a definition ...". -/
def Neode.model (n : Neode) (name : String) : Except String Model :=
  match n.modelLookup name with
  | some m => .ok m
  | none => .error ("Couldn't find a definition for \"" ++ name ++ "\".")

/-- ModelMap.getByLabels: first registered model whose sorted label list,
joined with ":", equals that of the requested labels. -/
def Neode.getByLabels (n : Neode) (labels : List String) : Option Model :=
  (n.models.map (·.2)).find? (fun d =>
    String.intercalate ":" (sortStrings d.labels) ==
      String.intercalate ":" (sortStrings labels))

end NeodeProof

namespace NeodeProof

/-! ## Clause model (src/Query/Property.ts, Match.ts, Relationship.ts,
Where.ts, WhereRaw.ts, WhereId.ts, WhereBetween.ts, WhereStatement.ts,
Order.ts, WithStatement.ts, WithDistinctStatement.ts) -/

/-- Query/Property.ts: an inline or SET property fragment. -/
structure QProperty where
  property : String
  paramName : Option String
  operator : String := "="
deriving DecidableEq

/-- this.param = paramName ? "$" + paramName : "null". -/
def QProperty.param (p : QProperty) : String :=
  match p.paramName with
  | some n => "$" ++ n
  | none => "null"

def QProperty.render (p : QProperty) : String :=
  (p.property ++ " " ++ p.operator ++ " " ++ p.param).trim

def QProperty.toInlineString (p : QProperty) : String :=
  (p.property ++ ": " ++ p.param).trim

/-- The model argument of a pattern node: a Model object or a label string. -/
inductive ModelRef where
  | model (m : Model)
  | name (s : String)

/-- Query/Match.ts: a pattern-node reference. -/
structure MatchClause where
  alias_ : String := ""
  model : Option ModelRef := none
  properties : List QProperty := []

def MatchClause.render (mc : MatchClause) : String :=
  let modelName :=
    match mc.model with
    | some (.model m) => ":" ++ String.intercalate ":" m.labels
    | some (.name s) => ":" ++ s
    | none => ""
  let propertiesStr :=
    if mc.properties.length ≠ 0 then
      " \x7b " ++ String.intercalate ", " (mc.properties.map QProperty.toInlineString)
        ++ " \x7d"
    else ""
  "(" ++ mc.alias_ ++ modelName ++ propertiesStr ++ ")"

/-- query/Relationship.ts: a relationship arrow. -/
structure RelClause where
  relationship : Option String := none
  direction : Option Direction := none
  alias_ : Option String := none
  traversals : Option String := none
deriving DecidableEq

def RelClause.render (r : RelClause) : String :=
  let dirIn := if r.direction = some .IN then "<" else ""
  let dirOut := if r.direction = some .OUT then ">" else ""
  let aliasStr := r.alias_.getD ""
  let relName := r.relationship.getD ""
  let relStr := if relName ≠ "" then ":`" ++ relName ++ "`" else relName
  let traversalsStr :=
    match r.traversals with
    | some t => if t ≠ "" then "*" ++ t else ""
    | none => ""
  let rel :=
    if r.relationship.getD "" ≠ "" || aliasStr ≠ "" || traversalsStr ≠ "" then
      "[" ++ aliasStr ++ relStr ++ traversalsStr ++ "]"
    else ""
  dirIn ++ "-" ++ rel ++ "-" ++ dirOut

/-- A pattern fragment of a Statement: node reference or relationship arrow. -/
inductive PatternElem where
  | node (m : MatchClause)
  | rel (r : RelClause)

def PatternElem.render : PatternElem → String
  | .node m => m.render
  | .rel r => r.render

/-- The filter leaves a WhereStatement can hold. -/
inductive WhereClause where
  | where_ (negative : Bool) (left operator right : String)
  | whereRaw (negative : Bool) (statement : String)
  | whereId (negative : Bool) (alias_ paramName : String)
  | whereBetween (negative : Bool) (alias_ floorParam ceilingParam : String)
deriving DecidableEq

def WhereClause.render : WhereClause → String
  | .where_ neg left operator right =>
    (if neg then "NOT " else "") ++ left ++ " " ++ operator ++ " " ++ right
  | .whereRaw neg statement => (if neg then "NOT " else "") ++ statement
  | .whereId neg alias_ paramName =>
    (if neg then "NOT " else "") ++ "id(" ++ alias_ ++ ") = $" ++ paramName
  | .whereBetween neg alias_ floorParam ceilingParam =>
    (if neg then "NOT " else "") ++ "$" ++ floorParam ++ " <= " ++ alias_ ++
      " <= $" ++ ceilingParam

/-- Set the negative flag on a clause (setNegative on the last clause). -/
def WhereClause.setNegative : WhereClause → WhereClause
  | .where_ _ l o r => .where_ true l o r
  | .whereRaw _ s => .whereRaw true s
  | .whereId _ a p => .whereId true a p
  | .whereBetween _ a f c => .whereBetween true a f c

/-- Query/WhereStatement.ts. -/
structure WhereStmt where
  pfx : String := ""
  clauses : List WhereClause := []
  connector : String := "AND"
deriving DecidableEq

def WhereStmt.append (w : WhereStmt) (clause : WhereClause) : WhereStmt :=
  { w with clauses := w.clauses ++ [clause] }

/-- setNegative on the last appended clause (this._where.last.setNegative()). -/
def WhereStmt.setLastNegative (w : WhereStmt) : WhereStmt :=
  { w with clauses := w.clauses.dropLast ++ (w.clauses.getLast?.map
      WhereClause.setNegative).toList }

def WhereStmt.render (w : WhereStmt) : String :=
  if w.clauses.length = 0 then ""
  else
    w.pfx ++ " (" ++
      String.intercalate (" " ++ w.connector ++ " ") (w.clauses.map WhereClause.render)
      ++ ") "

/-- Query/Order.ts. -/
structure OrderClause where
  what : String
  how : String := ""
deriving DecidableEq

def OrderClause.render (o : OrderClause) : String := (o.what ++ " " ++ o.how).trim

end NeodeProof

namespace NeodeProof

/-! ## Statement (src/Query/Statement.ts)

One logical query stanza: ordered pattern fragments, filters, mutation and
output clauses.  The serializer closure appendStatements of toString is the
appendSection helper below. -/

structure Statement where
  pfx : String := "MATCH"
  pattern : List PatternElem := []
  whereParts : List WhereStmt := []
  order : List OrderClause := []
  detachDeleteList : List String := []
  deleteList : List String := []
  returnList : List String := []
  setList : List QProperty := []
  onCreateSetList : List QProperty := []
  onMatchSetList : List QProperty := []
  removeList : List String := []
  limit : Option Int := none
  skip : Option Int := none

def Statement.match' (s : Statement) (m : MatchClause) : Statement :=
  { s with pattern := s.pattern ++ [.node m] }

def Statement.where' (s : Statement) (w : WhereStmt) : Statement :=
  { s with whereParts := s.whereParts ++ [w] }

def Statement.limit' (s : Statement) (limit : Int) : Statement :=
  { s with limit := some limit }

def Statement.skip' (s : Statement) (skip : Int) : Statement :=
  { s with skip := some skip }

def Statement.order' (s : Statement) (o : OrderClause) : Statement :=
  { s with order := s.order ++ [o] }

def Statement.delete' (s : Statement) (values : List String) : Statement :=
  { s with deleteList := s.deleteList ++ values }

def Statement.detachDelete (s : Statement) (values : List String) : Statement :=
  { s with detachDeleteList := s.detachDeleteList ++ values }

def Statement.return' (s : Statement) (values : List String) : Statement :=
  { s with returnList := s.returnList ++ values }

/-- Statement.relationship: a RelationshipType argument replaces the
relationship label and direction by its own. -/
def Statement.relationship' (s : Statement)
    (relationship : Option (Sum RelationshipType String))
    (direction : Option Direction) (alias_ : Option String)
    (degrees : Option String) : Statement :=
  let (relLabel, dir) :=
    match relationship with
    | some (.inl rel) => (some rel.relationship, some rel.direction)
    | some (.inr label) => (some label, direction)
    | none => (none, direction)
  let r : RelClause :=
    { relationship := relLabel
      direction := dir
      alias_ := alias_
      traversals := degrees }
  { s with pattern := s.pattern ++ [.rel r] }

def Statement.set' (s : Statement) (key valueParam : String)
    (operator : String := "=") : Statement :=
  let p : QProperty := { property := key, paramName := some valueParam, operator := operator }
  { s with setList := s.setList ++ [p] }

def Statement.setRaw (s : Statement) (items : List QProperty) : Statement :=
  { s with setList := s.setList ++ items }

def Statement.onCreateSet' (s : Statement) (key valueParam : String)
    (operator : String := "=") : Statement :=
  let p : QProperty := { property := key, paramName := some valueParam, operator := operator }
  { s with onCreateSetList := s.onCreateSetList ++ [p] }

def Statement.onMatchSet' (s : Statement) (key valueParam : String)
    (operator : String := "=") : Statement :=
  let p : QProperty := { property := key, paramName := some valueParam, operator := operator }
  { s with onMatchSetList := s.onMatchSetList ++ [p] }

def Statement.remove' (s : Statement) (items : List String) : Statement :=
  { s with removeList := s.removeList ++ items }

/-- The appendStatements closure of Statement.toString: a section with
entries contributes its (truthy) prefix line and one joined line; an empty
section contributes nothing. -/
def appendSection (out : List String) (statements : List String)
    (pfx : String := "") (join : String := "") : List String :=
  if statements.length ≠ 0 then
    (if pfx ≠ "" then out ++ [pfx] else out) ++ [String.intercalate join statements]
  else out

/-- JS numeric interpolation of the (possibly negative) skip/limit value. -/
def intRepr (n : Int) : String :=
  if n < 0 then "-" ++ natRepr n.natAbs else natRepr n.toNat

/-- Statement.toString: sections in source order — pattern, where, remove,
on-create-set, on-match-set, set, delete, detach-delete, return, order,
then truthy skip and limit — joined by newlines. -/
def Statement.render (s : Statement) (includePrefix : Bool := true) : String :=
  let output : List String := []
  let output := appendSection output (s.pattern.map PatternElem.render)
    (if includePrefix then s.pfx else "")
  let output := appendSection output (s.whereParts.map WhereStmt.render)
  let output := appendSection output s.removeList "REMOVE" ", "
  let output := appendSection output (s.onCreateSetList.map QProperty.render)
    "ON CREATE SET" ", "
  let output := appendSection output (s.onMatchSetList.map QProperty.render)
    "ON MATCH SET" ", "
  let output := appendSection output (s.setList.map QProperty.render) "SET" ", "
  let output := appendSection output s.deleteList "DELETE" "\n"
  let output := appendSection output s.detachDeleteList "DETACH DELETE" "\n"
  let output := appendSection output s.returnList "RETURN" "\n"
  let output := appendSection output (s.order.map OrderClause.render) "ORDER BY" "\n"
  let output := output ++
    (match s.skip with
     | some n => if n ≠ 0 then ["SKIP " ++ intRepr n] else []
     | none => [])
  let output := output ++
    (match s.limit with
     | some n => if n ≠ 0 then ["LIMIT " ++ intRepr n] else []
     | none => [])
  String.intercalate "\n" output

/-- The IStatement union: a Statement, a WithStatement or a
WithDistinctStatement. -/
inductive IStatement where
  | stmt (s : Statement)
  | withStmt (args : List String)
  | withDistinct (args : List String)

/-- toString of an IStatement; With statements ignore the includePrefix
argument. -/
def IStatement.render (includePrefix : Bool) : IStatement → String
  | .stmt s => s.render includePrefix
  | .withStmt args => "WITH " ++ String.intercalate "," args
  | .withDistinct args => "WITH DISTINCT " ++ String.intercalate "," args

end NeodeProof

namespace NeodeProof

/-! ## Query Builder (src/Query/Builder.ts)

The Builder's mutable state.  A thrown exception (the current getter with no
open statement, or a failed model lookup) is recorded in the failed field;
every subsequent operation on a failed builder is a no-op, which matches the
observable behaviour of the exception unwinding out of the compilation. -/

structure Builder where
  params : List (String × JVal) := []
  statements : List IStatement := []
  current : Option Statement := none
  whereCur : Option WhereStmt := none
  setCount : Nat := 0
  failed : Option String := none

/-- Run an update on the current statement; the current getter throws when
no statement is open. -/
def Builder.withCurrent (b : Builder) (f : Statement → Statement) : Builder :=
  if b.failed.isSome then b else
  match b.current with
  | none =>
    { b with failed := some "You must add a statement before using other builder methods" }
  | some c => { b with current := some (f c) }

/-- Builder.statement: push the current statement and open a new one (the
Statement constructor defaults its prefix to MATCH). -/
def Builder.statement (b : Builder) (pfx : Option String := none) : Builder :=
  if b.failed.isSome then b else
  let b :=
    match b.current with
    | some c => { b with statements := b.statements ++ [IStatement.stmt c] }
    | none => b
  { b with current := some { pfx := pfx.getD "MATCH" } }

/-- Builder.whereStatement: append the open where segment to the current
statement and start a new one. -/
def Builder.whereStatement (b : Builder) (pfx : String := "") : Builder :=
  if b.failed.isSome then b else
  match b.whereCur with
  | some w =>
    match b.current with
    | none =>
      { b with failed := some "You must add a statement before adding a where clause" }
    | some c =>
      { b with current := some (c.where' w), whereCur := some { pfx := pfx } }
  | none => { b with whereCur := some { pfx := pfx } }

/-- The model argument of match/create/merge/to: a Model object or a model
name that is resolved through Neode.model (which throws when missing). -/
def resolveModelArg (neode : Neode) (model : Option (Sum Model String)) :
    Except String (Option Model) :=
  match model with
  | none => .ok none
  | some (.inl m) => .ok (some m)
  | some (.inr name) => (neode.model name).map some

/-- Builder._convertPropertyMap: registers each property value under
alias_key (plain key when the alias is falsy) — overwriting any existing
entry — and returns the inline Property fragments. -/
def Builder.convertPropertyMap (b : Builder) (alias_ : Option String)
    (properties : List (String × JVal)) : List QProperty × Builder :=
  properties.foldl
    (fun acc kv =>
      let propertyAlias :=
        match alias_ with
        | some a => if a ≠ "" then a ++ "_" ++ kv.1 else kv.1
        | none => kv.1
      let p : QProperty := { property := kv.1, paramName := some propertyAlias }
      (acc.1 ++ [p], { acc.2 with params := objSet acc.2.params propertyAlias kv.2 }))
    ([], b)

/-- Builder.match. -/
def Builder.match' (neode : Neode) (b : Builder) (alias_ : Option String)
    (model : Option (Sum Model String) := none)
    (properties : List (String × JVal) := []) : Builder :=
  if b.failed.isSome then b else
  let b := b.whereStatement "WHERE"
  let b := b.statement
  match resolveModelArg neode model with
  | .error e => { b with failed := some e }
  | .ok modelObj =>
    let (props, b) := b.convertPropertyMap alias_ properties
    b.withCurrent (fun c => c.match'
      { alias_ := alias_.getD "", model := modelObj.map .model, properties := props })

/-- Builder.optionalMatch. -/
def Builder.optionalMatch (neode : Neode) (b : Builder) (alias_ : String)
    (model : Option (Sum Model String) := none) : Builder :=
  if b.failed.isSome then b else
  let b := b.whereStatement "WHERE"
  let b := b.statement (some "OPTIONAL MATCH")
  match resolveModelArg neode model with
  | .error e => { b with failed := some e }
  | .ok modelObj =>
    b.withCurrent (fun c => c.match' { alias_ := alias_, model := modelObj.map .model })

/-- Builder.with. -/
def Builder.with' (b : Builder) (args : List String) : Builder :=
  if b.failed.isSome then b else
  let b := b.whereStatement "WHERE"
  let b := b.statement
  if b.failed.isSome then b else
  { b with statements := b.statements ++ [IStatement.withStmt args] }

/-- The run of candidate names tried by _addWhereParameter:
base, base_2, base_3, ... -/
def candidateName (base : String) (attempt : Nat) : String :=
  if attempt = 1 then base else base ++ "_" ++ natRepr attempt

/-- The while loop of _addWhereParameter, with explicit fuel (the loop always
finds a free name within params.length + 1 attempts; see the freshness
theorem). -/
def findFreeParamName (params : List (String × JVal)) (base : String) :
    Nat → Nat → String
  | 0, attempt => candidateName base attempt
  | fuel + 1, attempt =>
    let v := candidateName base attempt
    if (objGet params v).isSome then findFreeParamName params base fuel (attempt + 1)
    else v

/-- key.replace(/[^a-z0-9]+/g, "_"): every maximal run of characters outside
[a-z0-9] collapses to a single underscore. -/
def sanitizeChars : List Char → Bool → List Char
  | [], _ => []
  | c :: rest, prevReplaced =>
    if ('a' ≤ c && c ≤ 'z') || ('0' ≤ c && c ≤ '9') then c :: sanitizeChars rest false
    else if prevReplaced then sanitizeChars rest true
    else '_' :: sanitizeChars rest true

def sanitizeKey (s : String) : String := String.mk (sanitizeChars s.data false)

/-- Builder._addWhereParameter: derive the base name where_<sanitized key>,
take the first candidate not yet present in the table, and bind the value
under it. -/
def Builder.addWhereParameter (b : Builder) (key : String) (value : JVal) :
    String × Builder :=
  let base := "where_" ++ sanitizeKey key
  let varName := findFreeParamName b.params base (b.params.length + 1) 1
  (varName, { b with params := objSet b.params varName value })

/-- Builder.where with (left, operator, value) — the leaf branch every other
where overload reduces to (two arguments insert the equals operator; object
and array forms recurse per entry).  A falsy left operand is the
"!args[0]" no-op. -/
def Builder.where3 (b : Builder) (left operator : String) (value : JVal) : Builder :=
  if b.failed.isSome then b else
  match b.whereCur with
  | none =>
    { b with failed := some "You must add a where statement before adding a where clause" }
  | some w =>
    if left = "" then b else
    let (right, b) := b.addWhereParameter left value
    let b := { b with params := objSet b.params right value }
    { b with whereCur := some (w.append (.where_ false left operator ("$" ++ right))) }

/-- Builder.whereId. -/
def Builder.whereId (b : Builder) (alias_ : String) (value : JVal) : Builder :=
  if b.failed.isSome then b else
  match b.whereCur with
  | none =>
    { b with failed := some "You must add a where statement before adding a where clause" }
  | some w =>
    let (param, b) := b.addWhereParameter (alias_ ++ "_id") value
    { b with whereCur := some (w.append (.whereId false alias_ param)) }

/-- Builder.delete. -/
def Builder.delete' (b : Builder) (args : List String) : Builder :=
  b.withCurrent (fun c => c.delete' args)

/-- Builder.detachDelete. -/
def Builder.detachDelete (b : Builder) (args : List String) : Builder :=
  b.withCurrent (fun c => c.detachDelete args)

/-- Builder.create. -/
def Builder.create (neode : Neode) (b : Builder) (alias_ : Option String)
    (model : Option (Sum Model String) := none)
    (properties : List (String × JVal) := []) : Builder :=
  if b.failed.isSome then b else
  let b := b.whereStatement "WHERE"
  let b := b.statement (some "CREATE")
  match resolveModelArg neode model with
  | .error e => { b with failed := some e }
  | .ok modelObj =>
    let (props, b) := b.convertPropertyMap alias_ properties
    b.withCurrent (fun c => c.match'
      { alias_ := alias_.getD "", model := modelObj.map .model, properties := props })

/-- Builder.merge. -/
def Builder.merge (neode : Neode) (b : Builder) (alias_ : Option String)
    (model : Option (Sum Model String) := none)
    (properties : List (String × JVal) := []) : Builder :=
  if b.failed.isSome then b else
  let b := b.whereStatement "WHERE"
  let b := b.statement (some "MERGE")
  match resolveModelArg neode model with
  | .error e => { b with failed := some e }
  | .ok modelObj =>
    let (props, b) := b.convertPropertyMap alias_ properties
    b.withCurrent (fun c => c.match'
      { alias_ := alias_.getD "", model := modelObj.map .model, properties := props })

/-- Builder.set with a property path and a defined value: binds the value
under set_<n> and appends the SET fragment. -/
def Builder.set1 (b : Builder) (property : String) (value : JVal)
    (operator : String := "=") : Builder :=
  if b.failed.isSome then b else
  let alias_ := "set_" ++ natRepr b.setCount
  let b := { b with params := objSet b.params alias_ value, setCount := b.setCount + 1 }
  b.withCurrent (fun c => c.set' property alias_ operator)

/-- Builder.onCreateSet with a property path and value. -/
def Builder.onCreateSet1 (b : Builder) (property : String) (value : JVal)
    (operator : String := "=") : Builder :=
  if b.failed.isSome then b else
  let alias_ := "set_" ++ natRepr b.setCount
  let b := { b with params := objSet b.params alias_ value, setCount := b.setCount + 1 }
  b.withCurrent (fun c => c.onCreateSet' property alias_ operator)

/-- Builder.onMatchSet with a property path and value. -/
def Builder.onMatchSet1 (b : Builder) (property : String) (value : JVal)
    (operator : String := "=") : Builder :=
  if b.failed.isSome then b else
  let alias_ := "set_" ++ natRepr b.setCount
  let b := { b with params := objSet b.params alias_ value, setCount := b.setCount + 1 }
  b.withCurrent (fun c => c.onMatchSet' property alias_ operator)

/-- Builder.return. -/
def Builder.return' (b : Builder) (args : List String) : Builder :=
  b.withCurrent (fun c => c.return' args)

/-- Builder.limit. -/
def Builder.limit' (b : Builder) (limit : Int) : Builder :=
  b.withCurrent (fun c => c.limit' limit)

/-- Builder.skip. -/
def Builder.skip' (b : Builder) (skip : Int) : Builder :=
  b.withCurrent (fun c => c.skip' skip)

/-- Builder.relationship. -/
def Builder.relationship' (b : Builder)
    (relationship : Option (Sum RelationshipType String) := none)
    (direction : Option Direction := none) (alias_ : Option String := none)
    (degrees : Option String := none) : Builder :=
  b.withCurrent (fun c => c.relationship' relationship direction alias_ degrees)

/-- Builder.to. -/
def Builder.to (neode : Neode) (b : Builder) (alias_ : Option String)
    (model : Option (Sum Model String) := none)
    (properties : List (String × JVal) := []) : Builder :=
  if b.failed.isSome then b else
  match resolveModelArg neode model with
  | .error e => { b with failed := some e }
  | .ok modelObj =>
    let (props, b) := b.convertPropertyMap alias_ properties
    b.withCurrent (fun c => c.match'
      { alias_ := alias_.getD "", model := modelObj.map .model, properties := props })

/-- replace(/\n+/g, "\n") of Builder.build. -/
def squashChars : List Char → Bool → List Char
  | [], _ => []
  | c :: rest, prevNl =>
    if c = '\n' then
      if prevNl then squashChars rest true else '\n' :: squashChars rest true
    else c :: squashChars rest false

def squashNewlines (s : String) : String := String.mk (squashChars s.data false)

/-- Builder.pattern: flush the where segment and current statement, then
render every statement without keywords. -/
def Builder.pattern (b : Builder) : String :=
  let b := b.whereStatement
  let b := b.statement
  String.intercalate "\n" (b.statements.map (IStatement.render false))

/-- Builder.build: flush, render every statement with keywords, collapse
newline runs; the result is the query text plus the parameter table. -/
def Builder.build (b : Builder) : String × List (String × JVal) × Builder :=
  let b := b.whereStatement
  let b := b.statement
  let query := squashNewlines (String.intercalate "\n"
    (b.statements.map (IStatement.render true)))
  (query, b.params, b)

end NeodeProof

namespace NeodeProof

/-! ## Eager-fetch compiler (src/query/EagerUtils.ts) -/

def EAGER_ID : String := "__EAGER_ID__"
def EAGER_LABELS : String := "__EAGER_LABELS__"
def EAGER_TYPE : String := "__EAGER_TYPE__"
def MAX_EAGER_DEPTH : Nat := 3

/-- "  ".repeat(n). -/
def strRepeat (s : String) (n : Nat) : String := String.join (List.replicate n s)

/-- The try/catch around the target lookup in eagerPattern: a failed
Neode.model lookup is swallowed and leaves the target model undefined. -/
def eagerTargetModel (neode : Neode) (target : Option String) : Option Model :=
  match target with
  | some name => (neode.model name).toOption
  | none => none

mutual

/-- eagerPattern: one-hop pattern from the subject alias through the
relationship to the freshly named aliases, then the shape-dependent nested
projection; node/relationship shapes select only the first match. -/
def eagerPattern (neode : Neode) (depth : Nat) (alias_ : String)
    (rel : RelationshipType) : String :=
  let name := rel.name
  let type := rel.type
  let relationshipVariable := alias_ ++ "_" ++ name ++ "_rel"
  let nodeVariable := alias_ ++ "_" ++ name ++ "_node"
  let targetModel := eagerTargetModel neode rel.target
  let builder := Builder.to neode
    (Builder.relationship' (Builder.match' neode {} (some alias_))
      (some (Sum.inr rel.relationship)) (some rel.direction)
      (some relationshipVariable) none)
    (some nodeVariable) (targetModel.map Sum.inl) []
  let fields :=
    if type == "node" || type == "nodes" then
      eagerNode neode (depth + 1) nodeVariable targetModel
    else if type == "relationship" || type == "relationships" then
      eagerRelationship neode (depth + 1) relationshipVariable rel.nodeAlias
        nodeVariable targetModel
    else nodeVariable
  let pattern := name ++ ": [ " ++ builder.pattern.trim ++ " | " ++ fields ++ " ]"
  if type == "node" || type == "relationship" then pattern ++ "[0]" else pattern
termination_by (3 * (5 - depth) + 2, 0)
decreasing_by
  all_goals simp_wf
  all_goals (first | simp only [MAX_EAGER_DEPTH] at * | skip)
  all_goals first
    | (apply Prod.Lex.right; omega)
    | (apply Prod.Lex.left; omega)
    | omega

/-- The for loop of eagerNode over the eager relationships. -/
def eagerFields (neode : Neode) (depth : Nat) (alias_ : String)
    (rels : List RelationshipType) : String :=
  match rels with
  | [] => ""
  | rel :: rest =>
    let indent := strRepeat "  " (depth * 2)
    "\n" ++ indent ++ indent ++ "," ++ eagerPattern neode depth alias_ rel ++
      eagerFields neode depth alias_ rest
termination_by (3 * (5 - depth) + 2, rels.length)
decreasing_by
  all_goals simp_wf
  all_goals (first | simp only [MAX_EAGER_DEPTH] at * | skip)
  all_goals first
    | (apply Prod.Lex.right; omega)
    | (apply Prod.Lex.left; omega)
    | omega

/-- eagerNode: projection of all properties (.*), the identity and label
markers, and — only while depth ≤ MAX_EAGER_DEPTH and a model is known —
one nested eagerPattern per eager relationship. -/
def eagerNode (neode : Neode) (depth : Nat) (alias_ : String)
    (model : Option Model) : String :=
  let indent := strRepeat "  " (depth * 2)
  let pattern := "\n" ++ indent ++ " " ++ alias_ ++ " \x7b "
  let pattern := pattern ++ "\n" ++ indent ++ indent ++ ".*"
  let pattern := pattern ++ "\n" ++ indent ++ indent ++ "," ++ EAGER_ID ++
    ": elementId(" ++ alias_ ++ ")"
  let pattern := pattern ++ "\n" ++ indent ++ indent ++ "," ++ EAGER_LABELS ++
    ": labels(" ++ alias_ ++ ")"
  let pattern :=
    match model with
    | some m =>
      if depth ≤ MAX_EAGER_DEPTH then pattern ++ eagerFields neode depth alias_ m.eager
      else pattern
    | none => pattern
  pattern ++ "\n" ++ indent ++ "\x7d"
termination_by (3 * (6 - depth), 0)
decreasing_by
  all_goals simp_wf
  all_goals (first | simp only [MAX_EAGER_DEPTH] at * | skip)
  all_goals first
    | (apply Prod.Lex.right; omega)
    | (apply Prod.Lex.left; omega)
    | omega

/-- eagerRelationship: projection of the relationship's properties, identity
and type markers, plus the nested node projection under the declared node
alias. -/
def eagerRelationship (neode : Neode) (depth : Nat) (alias_ nodeAlias
    nodeVariable : String) (nodeModel : Option Model) : String :=
  let indent := strRepeat "  " (depth * 2)
  let pattern := "\n" ++ indent ++ " " ++ alias_ ++ " \x7b "
  let pattern := pattern ++ "\n" ++ indent ++ indent ++ ".*"
  let pattern := pattern ++ "\n" ++ indent ++ indent ++ "," ++ EAGER_ID ++
    ": elementId(" ++ alias_ ++ ")"
  let pattern := pattern ++ "\n" ++ indent ++ indent ++ "," ++ EAGER_TYPE ++
    ": type(" ++ alias_ ++ ")"
  let pattern := pattern ++ "\n" ++ indent ++ indent ++ "," ++ nodeAlias ++ ": "
  let pattern := pattern ++ eagerNode neode (depth + 1) nodeVariable nodeModel
  pattern ++ "\n" ++ indent ++ "\x7d"
termination_by (3 * (5 - depth) + 1, 0)
decreasing_by
  all_goals simp_wf
  all_goals (first | simp only [MAX_EAGER_DEPTH] at * | skip)
  all_goals first
    | (apply Prod.Lex.right; omega)
    | (apply Prod.Lex.left; omega)
    | omega

end

end NeodeProof

namespace NeodeProof

/-! ## Specification-side nesting measure for the eager projection

Follows the spec's notion (section 4.3 and testable property 2) of how many
levels of eager sub-pattern inlining the compiled projection contains,
mirroring the recursion of eagerNode/eagerPattern step for step: a
sub-pattern contributes one level plus the levels of the node projection it
embeds (at depth+1 for node shapes, and at depth+2 for relationship shapes,
whose node projection sits inside eagerRelationship). -/

mutual

def eagerNestingPattern (neode : Neode) (depth : Nat) (rel : RelationshipType) : Nat :=
  let targetModel := eagerTargetModel neode rel.target
  if rel.type == "node" || rel.type == "nodes" then
    1 + eagerNestingNode neode (depth + 1) targetModel
  else if rel.type == "relationship" || rel.type == "relationships" then
    1 + eagerNestingNode neode (depth + 2) targetModel
  else 1
termination_by (3 * (5 - depth) + 2, 0)
decreasing_by
  all_goals simp_wf
  all_goals first
    | (apply Prod.Lex.right; omega)
    | (apply Prod.Lex.left; omega)
    | omega

def eagerNestingList (neode : Neode) (depth : Nat)
    (rels : List RelationshipType) : Nat :=
  match rels with
  | [] => 0
  | rel :: rest =>
    max (eagerNestingPattern neode depth rel) (eagerNestingList neode depth rest)
termination_by (3 * (5 - depth) + 2, rels.length)
decreasing_by
  all_goals simp_wf
  all_goals first
    | (apply Prod.Lex.right; omega)
    | (apply Prod.Lex.left; omega)
    | omega

def eagerNestingNode (neode : Neode) (depth : Nat) (model : Option Model) : Nat :=
  match model with
  | some m =>
    if depth ≤ MAX_EAGER_DEPTH then eagerNestingList neode depth m.eager else 0
  | none => 0
termination_by (3 * (6 - depth), 0)
decreasing_by
  all_goals simp_wf
  all_goals (first | simp only [MAX_EAGER_DEPTH] at * | skip)
  all_goals first
    | (apply Prod.Lex.right; omega)
    | (apply Prod.Lex.left; omega)
    | omega

end

end NeodeProof

namespace NeodeProof

/-! ## Payload depth (termination measure for the nested-write compiler) -/

mutual

def JVal.depth : JVal → Nat
  | .obj fields => 1 + depthFields fields
  | .arr elems => 1 + depthList elems
  | _ => 0

def depthFields : List (String × JVal) → Nat
  | [] => 0
  | kv :: rest => max kv.2.depth (depthFields rest)

def depthList : List JVal → Nat
  | [] => 0
  | v :: rest => max v.depth (depthList rest)

end

theorem objGet_depth_le (fields : List (String × JVal)) (key : String) :
    ∀ v, objGet fields key = some v → v.depth ≤ depthFields fields := by
  induction fields with
  | nil => intro v h; simp [objGet] at h
  | cons kv rest ih =>
    intro v h
    simp only [objGet] at h
    by_cases hk : kv.1 = key
    · simp [hk] at h
      subst h
      simp [depthFields]
    · simp [hk] at h
      calc v.depth ≤ depthFields rest := ih v h
        _ ≤ _ := by simp [depthFields]

theorem getD_objGet_depth_le (fields : List (String × JVal)) (key : String) :
    ((objGet fields key).getD JVal.null).depth ≤ depthFields fields := by
  cases h : objGet fields key with
  | none => simp [Option.getD, JVal.depth]
  | some v => simpa using objGet_depth_le fields key v h

theorem jget_some_depth_lt (v : JVal) (key : String) (w : JVal)
    (h : v.jget key = some w) : w.depth < v.depth := by
  cases v with
  | obj fields =>
    simp only [JVal.jget] at h
    have := objGet_depth_le fields key w h
    simp [JVal.depth]
    omega
  | null => simp [JVal.jget] at h
  | bool b => simp [JVal.jget] at h
  | num n => simp [JVal.jget] at h
  | neoInt n => simp [JVal.jget] at h
  | str s => simp [JVal.jget] at h
  | nodeRef i => simp [JVal.jget] at h
  | arr xs => simp [JVal.jget] at h

/-- Array.isArray dispatch of the relationships/nodes loops: a non-array
value is wrapped into a one-element array. -/
def jsToArray (v : JVal) : List JVal :=
  match v with
  | .arr xs => xs
  | v => [v]

theorem depthList_jsToArray_le (v : JVal) : depthList (jsToArray v) ≤ v.depth := by
  cases v with
  | arr xs => simp [jsToArray, JVal.depth] <;> omega
  | null => simp [jsToArray, depthList, JVal.depth]
  | bool b => simp [jsToArray, depthList, JVal.depth]
  | num n => simp [jsToArray, depthList, JVal.depth]
  | neoInt n => simp [jsToArray, depthList, JVal.depth]
  | str s => simp [jsToArray, depthList, JVal.depth]
  | nodeRef i => simp [jsToArray, depthList, JVal.depth]
  | obj fields => simp [jsToArray, depthList, JVal.depth]

theorem depthFields_objSet_le (fields : List (String × JVal)) (key : String)
    (v : JVal) :
    depthFields (objSet fields key v) ≤ max (depthFields fields) v.depth := by
  induction fields with
  | nil => simp [objSet, depthFields] <;> omega
  | cons kv rest ih =>
    simp only [objSet]
    by_cases hk : kv.1 = key
    · simp [hk, depthFields]
      omega
    · simp [hk, depthFields]
      omega

end NeodeProof

namespace NeodeProof

/-! ## Default values and value cleaning
(src/Services/GenerateDefaultValues.ts, CleanValue.ts) -/

/-- JS Number.parseInt(String(value)) over the embedded scalar domain; NaN
outcomes (non-numeric strings, booleans, objects) are represented by 0. -/
def jsParseIntApprox : JVal → Int
  | .num n => n
  | .neoInt n => n
  | .str s => s.toInt?.getD 0
  | _ => 0

/-- CleanValue, restricted to the value domain of the embedding: float and
int/integer coerce through number parsing (int wraps into a neo4j Integer),
boolean coerces to truthiness, and every other type tag — including plain
strings and the relationship shape tags — falls through the switch default
and returns the value unchanged.  The temporal and spatial branches concern
Date/Point values that do not occur in the embedded value domain. -/
def CleanValue (config : PropertySchema) (value : JVal) : JVal :=
  if config.type == "float" then .num (jsParseIntApprox value)
  else if config.type == "int" || config.type == "integer" then
    .neoInt (jsParseIntApprox value)
  else if config.type == "boolean" then .bool value.truthy
  else value

theorem CleanValue_depth_le (config : PropertySchema) (value : JVal) :
    (CleanValue config value).depth ≤ value.depth := by
  unfold CleanValue
  by_cases h1 : config.type == "float"
  · simp [h1, JVal.depth]
  by_cases h2 : config.type == "int" || config.type == "integer"
  · simp [h1, h2, JVal.depth]
  by_cases h3 : config.type == "boolean"
  · simp [h1, h2, h3, JVal.depth]
  · simp [h1, h2, h3]

/-- The configuration object GenerateDefaultValues reads from a schema
entry: a bare string is wrapped into a type-only object; relationship-like
entries carry their shape tag as type and no default. -/
def schemaEntryConfig : SchemaEntry → PropertySchema
  | .prop (.typeName t) => { type := t }
  | .prop (.schemaObj p) => p
  | .rel type _ _ _ _ _ _ _ => { type := type }

/-- The uuid generator's output: a fresh string value (represented by a
fixed placeholder; no claim depends on its content). -/
def uuidPlaceholder : JScalar := .str "generated-uuid"

/-- GenerateDefaultValues (the synchronous version used by the nested-write
compiler): for every schema entry, give a uuid-typed entry a generated
default, copy the bag's own value when present, otherwise fill the declared
default; clean truthy outputs through CleanValue. -/
def GenerateDefaultValues (neode : Neode) (model : Model)
    (properties : List (String × JVal)) : List (String × JVal) :=
  model.schema.entries.foldl
    (fun output kv =>
      let config := schemaEntryConfig kv.2
      let config :=
        if config.type == "uuid" then { config with defaultVal := some uuidPlaceholder }
        else config
      let output :=
        if objHasOwn properties kv.1 then
          objSet output kv.1 ((objGet properties kv.1).getD .null)
        else
          match config.defaultVal with
          | some d => objSet output kv.1 d.toJVal
          | none => output
      match objGet output kv.1 with
      | some v => if v.truthy then objSet output kv.1 (CleanValue config v) else output
      | none => output)
    []

theorem JScalar_toJVal_depth (d : JScalar) : d.toJVal.depth = 0 := by
  cases d <;> simp [JScalar.toJVal, JVal.depth]

/-- Every value GenerateDefaultValues writes is the bag's own value, a
scalar default, or a CleanValue image of one of those, so the output bag is
no deeper than the input bag. -/
theorem depthFields_GDV_le (neode : Neode) (model : Model)
    (properties : List (String × JVal)) :
    depthFields (GenerateDefaultValues neode model properties) ≤
      depthFields properties := by
  unfold GenerateDefaultValues
  generalize hacc : ([] : List (String × JVal)) = acc
  have hbound : depthFields acc ≤ depthFields properties := by
    subst hacc; simp [depthFields]
  clear hacc
  induction model.schema.entries generalizing acc with
  | nil => simpa using hbound
  | cons kv rest ih =>
    simp only [List.foldl_cons]
    apply ih
    -- one fold step keeps the bound
    set config0 := schemaEntryConfig kv.2 with hc0
    set config :=
      (if config0.type == "uuid" then { config0 with defaultVal := some uuidPlaceholder }
       else config0) with hc
    set mid :=
      (if objHasOwn properties kv.1 then
        objSet acc kv.1 ((objGet properties kv.1).getD .null)
      else
        match config.defaultVal with
        | some d => objSet acc kv.1 d.toJVal
        | none => acc) with hmid
    have hmidle : depthFields mid ≤ depthFields properties := by
      rw [hmid]
      by_cases hown : objHasOwn properties kv.1
      · simp only [hown, if_true]
        have h1 := depthFields_objSet_le acc kv.1 ((objGet properties kv.1).getD .null)
        have h2 := getD_objGet_depth_le properties kv.1
        omega
      · simp only [hown, if_false]
        cases config.defaultVal with
        | some d =>
          have h1 := depthFields_objSet_le acc kv.1 d.toJVal
          have h2 := JScalar_toJVal_depth d
          simp only [Bool.false_eq_true, if_false]
          omega
        | none => simpa using hbound
    cases hget : objGet mid kv.1 with
    | none => simpa [hget] using hmidle
    | some v =>
      simp only [hget]
      by_cases htr : v.truthy
      · simp only [htr, if_true]
        have h1 := depthFields_objSet_le mid kv.1 (CleanValue config v)
        have h2 := CleanValue_depth_le config v
        have h3 := objGet_depth_le mid kv.1 v hget
        omega
      · simpa [htr] using hmidle

end NeodeProof

namespace NeodeProof

/-! ## Nested-write compiler (src/Services/WriteUtils, the file bundled as
Services/DetachFrom.ts lines 408-849) -/

def MAX_CREATE_DEPTH : Nat := 99
def ORIGINAL_ALIAS : String := "this"

/-- valueToCypher (src/query/Statement.ts): a truthy plain number of a
property that should convert to integer is wrapped into a neo4j Integer. -/
def valueToCypher (property : Property) (value : JVal) : JVal :=
  match value with
  | .num n =>
    if property.shouldConvertToInteger && (JVal.num n).truthy then .neoInt n
    else .num n
  | v => v

/-- The write mode union "create" | "merge". -/
inductive Mode where
  | create
  | merge
deriving DecidableEq

def Mode.isCreate : Mode → Bool
  | .create => true
  | .merge => false

/-- The four property buckets splitProperties returns. -/
structure SplitProps where
  inline : List (String × JVal) := []
  onCreate : List (String × JVal) := []
  onMatch : List (String × JVal) := []
  set : List (String × JVal) := []

/-- splitProperties: walk the model's declared properties; skip ones absent
from the bag; in create mode everything present goes inline; in merge mode a
mergeOn property goes inline, a protected-or-primary property goes to the
on-create bucket, a non-readonly property goes to the set bucket, and a
readonly property is dropped.  Nothing ever writes the onMatch bucket. -/
def splitProperties (mode : Mode) (model : Model)
    (properties : List (String × JVal)) (mergeOn : List String := []) :
    SplitProps :=
  (model.properties.map (·.2)).foldl
    (fun acc property =>
      let name := property.name
      if ¬ objHasOwn properties name then acc
      else
        let value := valueToCypher property ((objGet properties name).getD .null)
        if mode = .create then { acc with inline := objSet acc.inline name value }
        else if mergeOn.contains name then
          { acc with inline := objSet acc.inline name value }
        else if property.protectedGet || property.primary then
          { acc with onCreate := objSet acc.onCreate name value }
        else if ¬ property.readonly then
          { acc with set := objSet acc.set name value }
        else acc)
    {}

end NeodeProof

namespace NeodeProof

/-- Helper for getD-null elimination used by the termination proofs. -/
theorem getD_null_eq_obj (o : Option JVal) (f : List (String × JVal))
    (h : o.getD JVal.null = .obj f) : o = some (.obj f) := by
  cases o with
  | none => simp [Option.getD] at h
  | some v => simp [Option.getD] at h; simp [h]

/-- The primary-key merge branch shared by both relationship writers: when a
scalar is given for the target node it is merged by the target model's
primary key (Neode.model throws for an unregistered name; an undefined
target makes the primaryKey read blow up). -/
def mergeByPrimary (neode : Neode) (b : Builder) (targetAlias : String)
    (relationship : RelationshipType) (nodeValue : JVal) : Builder :=
  match relationship.target with
  | some tname =>
    match neode.model tname with
    | .error e => { b with failed := some e }
    | .ok m =>
      Builder.merge neode b (some targetAlias) (some (Sum.inl m))
        [(m.primaryKey, nodeValue)]
  | none =>
    { b with failed := some "TypeError: cannot read primaryKey of undefined" }

mutual

/-- addNodeToStatement: split the bag's scalar properties, record the alias,
open the create/merge pattern with the inline bucket, emit the on-create and
set buckets (the onMatch bucket is also sent to onCreateSet in the source,
and is always empty), then expand every relationship key present in the
bag.  The shared aliases array is threaded as state; a builder that has
already failed is left untouched (the thrown exception would have unwound
past this call). -/
def addNodeToStatement (neode : Neode) (b : Builder) (alias_ : String)
    (model : Model) (properties : List (String × JVal))
    (aliases : List String) (mode : Mode) (mergeOn : List String) :
    Builder × List String :=
  if b.failed.isSome then (b, aliases) else
  let split := splitProperties mode model properties mergeOn
  let aliases := if aliases.contains alias_ then aliases else aliases ++ [alias_]
  let b :=
    match mode with
    | .create => Builder.create neode b (some alias_) (some (Sum.inl model)) split.inline
    | .merge => Builder.merge neode b (some alias_) (some (Sum.inl model)) split.inline
  let b := split.onCreate.foldl
    (fun b kv => b.onCreateSet1 (alias_ ++ "." ++ kv.1) kv.2) b
  let b := split.onMatch.foldl
    (fun b kv => b.onCreateSet1 (alias_ ++ "." ++ kv.1) kv.2) b
  let b := split.set.foldl (fun b kv => b.set1 (alias_ ++ "." ++ kv.1) kv.2) b
  addNodeRels neode b alias_ model properties aliases mode model.relationships
termination_by (3 * depthFields properties + 3, 0)
decreasing_by
  all_goals simp_wf
  all_goals simp only [Prod.lex_def]
  all_goals omega

/-- The relationship loop of addNodeToStatement: for every declared
relationship whose key is present in the bag, carry the aliases through a
WITH statement and dispatch on the relationship shape (arrays get indexed
alias suffixes). -/
def addNodeRels (neode : Neode) (b : Builder) (alias_ : String) (model : Model)
    (properties : List (String × JVal)) (aliases : List String) (mode : Mode)
    (rels : List (String × RelationshipType)) : Builder × List String :=
  match rels with
  | [] => (b, aliases)
  | (key, relationship) :: rest =>
    let step : Builder × List String :=
      if objHasOwn properties key then
        let value := (objGet properties key).getD .null
        let relAlias := alias_ ++ "_" ++ key ++ "_rel"
        let targetAlias := alias_ ++ "_" ++ key ++ "_node"
        let b := b.with' aliases
        if relationship.target = none then
          ({ b with failed := some ("A target defintion must be defined for " ++
              key ++ " on model " ++ model.name) }, aliases)
        else if relationship.type == "relationship" then
          addRelationshipToStatement neode b alias_ relAlias targetAlias
            relationship value aliases mode
        else if relationship.type == "relationships" then
          relsArrayLoop neode b alias_ relAlias targetAlias relationship
            (jsToArray value) aliases mode 0
        else if relationship.type == "node" then
          addNodeRelationshipToStatement neode b alias_ relAlias targetAlias
            relationship value aliases mode
        else if relationship.type == "nodes" then
          nodesArrayLoop neode b alias_ relAlias targetAlias relationship
            (jsToArray value) aliases mode 0
        else (b, aliases)
      else (b, aliases)
    addNodeRels neode step.1 alias_ model properties step.2 mode rest
termination_by (3 * depthFields properties + 2, rels.length)
decreasing_by
  all_goals simp_wf
  all_goals simp only [Prod.lex_def]
  all_goals
    first
    | omega
    | (have h1 := getD_objGet_depth_le properties k
       have h2 := depthList_jsToArray_le ((objGet properties k).getD JVal.null)
       omega)
    | (simp only [true_and]
       omega)

/-- The indexed forEach over an array of relationship payloads. -/
def relsArrayLoop (neode : Neode) (b : Builder) (alias_ relAlias targetAlias : String)
    (relationship : RelationshipType) (vals : List JVal) (aliases : List String)
    (mode : Mode) (idx : Nat) : Builder × List String :=
  match vals with
  | [] => (b, aliases)
  | v :: rest =>
    let step := addRelationshipToStatement neode b alias_
      (relAlias ++ natRepr idx) (targetAlias ++ natRepr idx) relationship v
      aliases mode
    relsArrayLoop neode step.1 alias_ relAlias targetAlias relationship rest
      step.2 mode (idx + 1)
termination_by (3 * depthList vals + 1, vals.length)
decreasing_by
  all_goals simp_wf
  all_goals simp only [Prod.lex_def]
  all_goals
    (have h1 : JVal.depth v ≤ depthList (v :: rest) := by simp [depthList]
     have h2 : depthList rest ≤ depthList (v :: rest) := by simp [depthList]
     omega)

/-- The indexed forEach over an array of node payloads. -/
def nodesArrayLoop (neode : Neode) (b : Builder) (alias_ relAlias targetAlias : String)
    (relationship : RelationshipType) (vals : List JVal) (aliases : List String)
    (mode : Mode) (idx : Nat) : Builder × List String :=
  match vals with
  | [] => (b, aliases)
  | v :: rest =>
    let step := addNodeRelationshipToStatement neode b alias_
      (relAlias ++ natRepr idx) (targetAlias ++ natRepr idx) relationship v
      aliases mode
    nodesArrayLoop neode step.1 alias_ relAlias targetAlias relationship rest
      step.2 mode (idx + 1)
termination_by (3 * depthList vals + 1, vals.length)
decreasing_by
  all_goals simp_wf
  all_goals simp only [Prod.lex_def]
  all_goals
    (have h1 : JVal.depth v ≤ depthList (v :: rest) := by simp [depthList]
     have h2 : depthList rest ≤ depthList (v :: rest) := by simp [depthList]
     omega)

/-- addRelationshipToStatement: the depth guard, extraction (and deletion)
of the node payload under the declared node alias, the three accepted node
shapes (live entity by identity, scalar primary key, nested bag compiled
recursively with defaults), the relationship pattern itself, and the
relationship-level properties from the remaining value keys. -/
def addRelationshipToStatement (neode : Neode) (b : Builder)
    (alias_ relAlias targetAlias : String) (relationship : RelationshipType)
    (value : JVal) (aliases : List String) (mode : Mode) :
    Builder × List String :=
  if b.failed.isSome then (b, aliases) else
  if aliases.length > MAX_CREATE_DEPTH then (b, aliases)
  else
    let nodeAlias := relationship.nodeAlias
    let erased :=
      match value with
      | .obj fields => JVal.obj (objErase fields nodeAlias)
      | v => v
    let state :=
      match hnv : (value.jget nodeAlias).getD JVal.null with
      | .nodeRef id =>
        (Builder.whereId (Builder.match' neode b (some targetAlias)) targetAlias
          (.neoInt id), aliases)
      | .str s => (mergeByPrimary neode b targetAlias relationship (.str s), aliases)
      | .num n => (mergeByPrimary neode b targetAlias relationship (.num n), aliases)
      | .obj nfields =>
        if nfields.length ≠ 0 then
          match relationship.target with
          | some tname =>
            match neode.model tname with
            | .error e => ({ b with failed := some e }, aliases)
            | .ok m =>
              let defaulted := GenerateDefaultValues neode m nfields
              addNodeToStatement neode b targetAlias m defaulted aliases mode
                m.mergeFields
          | none =>
            ({ b with failed := some ("Couldn't find a target model for " ++
                relationship.name) }, aliases)
        else (b, aliases)
      | _ => (b, aliases)
    let b := state.1
    let aliases := state.2
    let b :=
      match mode with
      | .create => Builder.create neode b (some alias_)
      | .merge => Builder.merge neode b (some alias_)
    let b := Builder.to neode
      (b.relationship' (some (Sum.inr relationship.relationship))
        (some relationship.direction) (some relAlias) none)
      (some targetAlias)
    let b := (relationship.properties.map (·.2)).foldl
      (fun b property =>
        if (erased.jget property.name).isSome then
          b.set1 (relAlias ++ "." ++ property.name)
            ((erased.jget property.name).getD .null)
        else b) b
    (b, aliases)
termination_by (3 * value.depth, 0)
decreasing_by
  all_goals simp_wf
  all_goals simp only [Prod.lex_def]
  all_goals
    (have h0 := getD_null_eq_obj _ _ hnv
     have h1 := jget_some_depth_lt value relationship.nodeAlias _ h0
     have h2 := depthFields_GDV_le neode m nfields
     simp only [JVal.depth] at h1
     omega)

/-- addNodeRelationshipToStatement: like addRelationshipToStatement but the
payload itself is the node value and no relationship properties are set. -/
def addNodeRelationshipToStatement (neode : Neode) (b : Builder)
    (alias_ relAlias targetAlias : String) (relationship : RelationshipType)
    (value : JVal) (aliases : List String) (mode : Mode) :
    Builder × List String :=
  if b.failed.isSome then (b, aliases) else
  if aliases.length > MAX_CREATE_DEPTH then (b, aliases)
  else
    let state :=
      match hv : value with
      | .nodeRef id =>
        (Builder.whereId (Builder.match' neode b (some targetAlias)) targetAlias
          (.neoInt id), aliases)
      | .str s => (mergeByPrimary neode b targetAlias relationship (.str s), aliases)
      | .num n => (mergeByPrimary neode b targetAlias relationship (.num n), aliases)
      | .obj fields =>
        if fields.length ≠ 0 then
          match relationship.target with
          | some tname =>
            match neode.model tname with
            | .error e => ({ b with failed := some e }, aliases)
            | .ok m =>
              let defaulted := GenerateDefaultValues neode m fields
              addNodeToStatement neode b targetAlias m defaulted aliases mode
                m.mergeFields
          | none =>
            ({ b with failed := some ("Couldn't find a target model for " ++
                relationship.name) }, aliases)
        else (b, aliases)
      | _ => (b, aliases)
    let b := state.1
    let aliases := state.2
    let b :=
      match mode with
      | .create => Builder.create neode b (some alias_)
      | .merge => Builder.merge neode b (some alias_)
    let b := Builder.to neode
      (b.relationship' (some (Sum.inr relationship.relationship))
        (some relationship.direction) (some relAlias) none)
      (some targetAlias)
    (b, aliases)
termination_by (3 * value.depth + 1, 0)
decreasing_by
  all_goals simp_wf
  all_goals simp only [Prod.lex_def]
  all_goals
    first
    | omega
    | (have h2 := depthFields_GDV_le neode m nfields
       simp only [JVal.depth]
       omega)

end

end NeodeProof

namespace NeodeProof

/-! ## Cascade-delete compiler (src/Services/DeleteNode.ts) -/

/-- The depth constant of DeleteNode.ts (confusingly also named
MAX_EAGER_DEPTH there), value 10. -/
def MAX_EAGER_DEPTH_DELETE : Nat := 10

/-- The relationship values of a model (Map.values()). -/
def Model.relValues (m : Model) : List RelationshipType :=
  m.relationships.map (fun kv => kv.2)

/-- The target resolution line of addCascadeDeleteNode: a string target goes
through Neode.model (which throws for an unregistered name); an undefined
target stays undefined. -/
def resolveCascadeTarget (neode : Neode) (target : Option String) :
    Except String (Option Model) :=
  match target with
  | some tname => (neode.model tname).map some
  | none => .ok none

mutual

/-- addCascadeDeleteNode: stop once the accumulated alias list outgrows the
depth bound; otherwise resolve the target model (Neode.model throws for an
unregistered name), emit the OPTIONAL MATCH hop to the freshly aliased
target, recurse into the target's cascade=DELETE relationships with the
nodeAlias appended to the (non-destructively concatenated) alias list, and
finally detach-delete the target alias on the then-current statement. -/
def addCascadeDeleteNode (neode : Neode) (builder : Builder) (fromAlias : String)
    (relationship : RelationshipType) (aliases : List String) (toDepth : Nat) :
    Builder :=
  if h : aliases.length > toDepth then builder
  else
    let relAlias := fromAlias ++ relationship.name ++ "_rel"
    let nodeAlias := fromAlias ++ relationship.name ++ "_node"
    match resolveCascadeTarget neode relationship.target with
    | .error e => { builder with failed := some e }
    | .ok target =>
      let builder := Builder.to neode
        (Builder.relationship' (Builder.optionalMatch neode builder fromAlias)
          (some (Sum.inr relationship.relationship))
          (some relationship.direction) (some relAlias) none)
        (some nodeAlias) (relationship.target.map Sum.inr)
      let builder :=
        match target with
        | some t =>
          if t.relationships.length ≠ 0 then
            cascadeDeleteLoop neode builder nodeAlias t.relValues
              (aliases ++ [nodeAlias]) toDepth
          else builder
        | none => builder
      builder.detachDelete [nodeAlias]
termination_by ((toDepth + 1) - aliases.length, 0)
decreasing_by
  all_goals simp_wf
  all_goals simp only [Prod.lex_def]
  all_goals (first | simp only [List.length_append, List.length_cons, List.length_nil] | skip)
  all_goals (first | simp only [true_and] | skip)
  all_goals omega

/-- The cascade loop over a model's relationships: recurse for every
relationship whose cascade policy is DELETE (the DETACH branch is the
commented-out no-op in the source, and a bare boolean cascade falls into
the TODO case, also a no-op).  The same loop body appears inline both in
DeleteNode and in addCascadeDeleteNode. -/
def cascadeDeleteLoop (neode : Neode) (builder : Builder) (fromAlias : String)
    (rels : List RelationshipType) (aliases : List String) (toDepth : Nat) :
    Builder :=
  match rels with
  | [] => builder
  | rel :: rest =>
    let builder :=
      if rel.cascade = CascadeSetting.delete then
        addCascadeDeleteNode neode builder fromAlias rel aliases toDepth
      else builder
    cascadeDeleteLoop neode builder fromAlias rest aliases toDepth
termination_by ((toDepth + 1) - aliases.length, rels.length + 1)
decreasing_by
  all_goals simp_wf
  all_goals simp only [Prod.lex_def]
  all_goals (first | simp only [List.length_cons] | skip)
  all_goals (first | simp only [true_and] | skip)
  all_goals omega

end

/-- DeleteNode: match the root by identity, run the cascade loop over the
root model's relationships, then detach-delete the root alias; the service
then executes the built query in write mode (execution is outside the
embedding — theorems inspect the compiled builder). -/
def DeleteNode (neode : Neode) (identity : JVal) (model : Model)
    (toDepth : Nat := MAX_EAGER_DEPTH_DELETE) : Builder :=
  let alias_ := "this"
  let aliases := [alias_]
  let builder := Builder.whereId
    (Builder.match' neode {} (some alias_) (some (Sum.inl model))) alias_ identity
  let builder := cascadeDeleteLoop neode builder alias_ model.relValues aliases
    toDepth
  builder.detachDelete [alias_]

end NeodeProof

namespace NeodeProof

/-! ## Hydrator (src/Factory.ts) and hydrated entities (Node.ts,
Relationship.ts) -/

mutual

/-- A hydrated Node: model definition, identity token, label set, property
map and eagerly hydrated values. -/
inductive HNode where
  | mk (model : Model) (identity : Int) (labels : List String)
      (properties : List (String × JVal)) (eager : List (String × HEager))

/-- A hydrated Relationship: definition, identity and type marker values as
read from the row, property map, start and end node. -/
inductive HRel where
  | mk (definition : RelationshipType) (identity : JVal) (relType : JVal)
      (properties : List (String × JVal)) (startNode endNode : HNode)

/-- The values an eager map can hold: Node, NodeCollection, Relationship or
RelationshipCollection. -/
inductive HEager where
  | node (n : HNode)
  | nodes (ns : List HNode)
  | rel (r : HRel)
  | rels (rs : List HRel)

end

def HNode.model : HNode → Model
  | .mk m _ _ _ _ => m

def HNode.identity : HNode → Int
  | .mk _ i _ _ _ => i

def HNode.labels : HNode → List String
  | .mk _ _ ls _ _ => ls

def HNode.properties : HNode → List (String × JVal)
  | .mk _ _ _ ps _ => ps

def HNode.eager : HNode → List (String × HEager)
  | .mk _ _ _ _ e => e

/-- Node.setEager (Map.set semantics). -/
def HNode.setEager (n : HNode) (key : String) (value : HEager) : HNode :=
  match n with
  | .mk m i ls ps e =>
    .mk m i ls ps
      (if (e.find? (fun kv => kv.1 == key)).isSome then
        e.map (fun kv => if kv.1 == key then (kv.1, value) else kv)
      else e ++ [(key, value)])

/-- A JS string coercion placeholder for label values (the source casts the
label array to string[] without checking; rows carry string labels). -/
def jvalAsString : JVal → String
  | .str s => s
  | _ => ""

theorem jget_getD_null_depth_le (v : JVal) (key : String) :
    ((v.jget key).getD JVal.null).depth ≤ v.depth := by
  cases h : v.jget key with
  | none => simp [Option.getD, JVal.depth]
  | some w =>
    have := jget_some_depth_lt v key w h
    simpa [Option.getD] using Nat.le_of_lt this

mutual

/-- Factory.hydrateNode: fail without an integer identity marker; build
hydratedData from the row's properties object plus the identity (and label)
markers; resolve the model from the override or the row's label set (fail
when none resolves); copy only declared property keys; then hydrate every
eager relationship, failing when the expected nested field is falsy. -/
def hydrateNode (neode : Neode) (record : JVal)
    (definitionOrString : Option (Sum Model String)) : Except String HNode :=
  match hid : record.jget "identity" with
  | some (JVal.neoInt identity) =>
    let propsObj :=
      match record.jget "properties" with
      | some (.obj pf) => pf
      | _ => []
    let hydratedData := objSet propsObj EAGER_ID (.neoInt identity)
    let labelsOpt : Option (List String) :=
      match record.jget "labels" with
      | some (.arr ls) => some (ls.map jvalAsString)
      | _ => none
    let hydratedData :=
      match labelsOpt with
      | some ls => objSet hydratedData EAGER_LABELS (.arr (ls.map JVal.str))
      | none => hydratedData
    let definition : Option Model :=
      match definitionOrString, labelsOpt with
      | none, some ls => neode.getByLabels ls
      | some (.inr s), _ => neode.modelLookup s
      | some (.inl m), _ => some m
      | none, none => none
    match definition with
    | none => .error "No model definition found for labels"
    | some definition =>
      let properties := definition.properties.foldl
        (fun acc kv =>
          if objHasOwn hydratedData kv.1 then
            acc ++ [(kv.1, (objGet hydratedData kv.1).getD .null)]
          else acc) []
      hydrateEagerLoop neode record.objFields
        (HNode.mk definition identity (labelsOpt.getD []) properties [])
        definition.eager
  | _ => .error "No node identity found in record"
termination_by (2 * record.depth + 1, 0)
decreasing_by
  all_goals simp_wf
  all_goals simp only [Prod.lex_def]
  all_goals
    (cases record <;>
      first
      | (simp [JVal.depth, JVal.objFields]; omega)
      | exact absurd hid (by simp [JVal.jget])
      | omega)

/-- The eager loop of hydrateNode: read the nested field named after each
eager RelationshipDeclaration (failing when it is falsy) and hydrate it
according to the declaration's shape tag. -/
def hydrateEagerLoop (neode : Neode) (recordFields : List (String × JVal))
    (node : HNode) (eagerRels : List RelationshipType) : Except String HNode :=
  match eagerRels with
  | [] => .ok node
  | eager :: rest =>
    let name := eager.name
    let fieldVal := (objGet recordFields name).getD .null
    if ¬ fieldVal.truthy then
      .error ("Could not find eager property " ++ name ++ " on record")
    else
      let step : Except String HNode :=
        if eager.type == "node" then
          (hydrateNode neode fieldVal none).map
            (fun child => node.setEager name (.node child))
        else if eager.type == "nodes" then
          match hfv : fieldVal with
          | .arr vals =>
            (hydrateNodesLoop neode vals).map
              (fun children => node.setEager name (.nodes children))
          | _ => .error "TypeError: record field is not an array"
        else if eager.type == "relationship" then
          (hydrateRelationship neode eager fieldVal node).map
            (fun child => node.setEager name (.rel child))
        else if eager.type == "relationships" then
          match hfv : fieldVal with
          | .arr vals =>
            (hydrateRelsLoop neode eager vals node).map
              (fun children => node.setEager name (.rels children))
          | _ => .error "TypeError: record field is not an array"
        else .ok node
      match step with
      | .error e => .error e
      | .ok node => hydrateEagerLoop neode recordFields node rest
termination_by (2 * depthFields recordFields + 2, eagerRels.length)
decreasing_by
  all_goals simp_wf
  all_goals simp only [Prod.lex_def]
  all_goals (first | simp only [true_and] | skip)
  all_goals
    first
    | (have h1 := getD_objGet_depth_le recordFields rel.name
       omega)
    | (unfold_let fieldVal name at hfv
       have h0 : objGet recordFields rel.name = some (JVal.arr vals) := by
         cases hg : objGet recordFields rel.name with
         | none => rw [hg] at hfv; simp [Option.getD] at hfv
         | some w => rw [hg] at hfv; simp [Option.getD] at hfv; simp [hfv]
       have h1 := objGet_depth_le recordFields rel.name _ h0
       simp only [JVal.depth] at h1
       omega)
    | omega

/-- The map over an array of node rows. -/
def hydrateNodesLoop (neode : Neode) (vals : List JVal) :
    Except String (List HNode) :=
  match vals with
  | [] => .ok []
  | v :: rest =>
    match hydrateNode neode v none with
    | .error e => .error e
    | .ok n =>
      match hydrateNodesLoop neode rest with
      | .error e => .error e
      | .ok ns => .ok (n :: ns)
termination_by (2 * depthList vals + 2, vals.length)
decreasing_by
  all_goals simp_wf
  all_goals simp only [Prod.lex_def]
  all_goals (first | simp only [true_and] | skip)
  all_goals
    (have h1 : JVal.depth v ≤ depthList (v :: rest) := by simp [depthList]
     have h2 : depthList rest ≤ depthList (v :: rest) := by simp [depthList]
     omega)

/-- The map over an array of relationship rows. -/
def hydrateRelsLoop (neode : Neode) (definition : RelationshipType)
    (vals : List JVal) (thisNode : HNode) : Except String (List HRel) :=
  match vals with
  | [] => .ok []
  | v :: rest =>
    match hydrateRelationship neode definition v thisNode with
    | .error e => .error e
    | .ok r =>
      match hydrateRelsLoop neode definition rest thisNode with
      | .error e => .error e
      | .ok rs => .ok (r :: rs)
termination_by (2 * depthList vals + 2, vals.length)
decreasing_by
  all_goals simp_wf
  all_goals simp only [Prod.lex_def]
  all_goals (first | simp only [true_and] | skip)
  all_goals
    (have h1 : JVal.depth v ≤ depthList (v :: rest) := by simp [depthList]
     have h2 : depthList rest ≤ depthList (v :: rest) := by simp [depthList]
     omega)

/-- Factory.hydrateRelationship: read the identity and type markers (no
check), copy declared relationship properties, hydrate the other node from
the field named by the declaration's node alias, and orient start/end by
the declared direction (IN swaps this entity and the other node). -/
def hydrateRelationship (neode : Neode) (definition : RelationshipType)
    (record : JVal) (thisNode : HNode) : Except String HRel :=
  let identity := (record.jget EAGER_ID).getD .null
  let relType := (record.jget EAGER_TYPE).getD .null
  let properties := definition.properties.foldl
    (fun acc kv =>
      if (record.jget kv.1).isSome then
        acc ++ [(kv.1, (record.jget kv.1).getD .null)]
      else acc) []
  match hydrateNode neode ((record.jget definition.nodeAlias).getD .null) none with
  | .error e => .error e
  | .ok otherNode =>
    let startNode := if definition.direction = .IN then otherNode else thisNode
    let endNode := if definition.direction = .IN then thisNode else otherNode
    .ok (HRel.mk definition identity relType properties startNode endNode)
termination_by (2 * record.depth + 1, 1)
decreasing_by
  all_goals simp_wf
  all_goals simp only [Prod.lex_def]
  all_goals
    (have h1 := jget_getD_null_depth_le record definition.nodeAlias
     omega)

end

end NeodeProof

namespace NeodeProof

/-- valueToJson (src/query/Statement.ts): neo4j Integers convert to plain
numbers; the temporal and spatial branches concern value kinds outside the
embedded domain; everything else passes through. -/
def valueToJson (property : Property) (value : JVal) : JVal :=
  match value with
  | .neoInt n => .num n
  | v => v

/-- Entity.properties() (src/query/Statement.ts): walk the model's declared
properties and copy every non-hidden key present in the internal property
map through valueToJson. -/
def HNode.entityProperties (n : HNode) : List (String × JVal) :=
  n.model.properties.foldl
    (fun output kv =>
      if ¬ kv.2.hidden && objHasOwn n.properties kv.1 then
        objSet output kv.1
          (valueToJson kv.2 ((objGet n.properties kv.1).getD .null))
      else output)
    []

/-! ## Batch execution (Neode.batch/transaction and TransactionError; the
exported Neode variant runs the queries with Promise.allSettled) -/

/-- TransactionError: carries a list of errors (ERROR_TRANSACTION_FAILED). -/
structure TransactionError (ε : Type) where
  errors : List ε
deriving DecidableEq

/-- errorResults of Neode.batch: from the settled outcomes of the dispatched
queries, the rejection reasons in dispatch order
(results.filter(r: r.status is rejected).map(r: r.reason)). -/
def errorResults {ε α : Type} (results : List (Except ε α)) : List ε :=
  results.filterMap (fun r => match r with
    | .error e => some e
    | .ok _ => none)

/-- successfulResults of Neode.batch: the fulfilled values in dispatch order
(results.filter(r: r.status is fulfilled).map(r: r.value)). -/
def successfulResults {ε α : Type} (results : List (Except ε α)) : List α :=
  results.filterMap (fun r => match r with
    | .ok a => some a
    | .error _ => none)

/-- Neode.batch: run all queries in one transaction via Promise.allSettled;
when one or more queries were rejected, every rejection reason is collected
into errorResults and a single TransactionError(errorResults) is thrown
(rolling the transaction back); otherwise the batch resolves with the
fulfilled results.  The queries are represented by their settled outcomes. -/
def Neode.batch {ε α : Type} (queries : List (Except ε α)) :
    Except (TransactionError ε) (List α) :=
  if (errorResults queries).length > 0 then
    .error { errors := errorResults queries }
  else
    .ok (successfulResults queries)

end NeodeProof

namespace NeodeProof

/-! ## Theorems.

### Claim C7 — Statement serialization order

The specification fixes the section order pattern, filter, remove,
on-create-set, on-match-set, set, delete, detach-delete, return, order-by,
skip, limit and says an omitted section contributes nothing.  The spec-side
renderer below is written from those words; the theorem shows the source's
Statement.render coincides with it. -/

/-- Spec-side section block: a section with entries contributes its keyword
line (when there is a keyword) and one joined line; a section with no
entries contributes nothing. -/
def sectionBlock (statements : List String) (pfx : String := "")
    (join : String := "") : List String :=
  if statements.length ≠ 0 then
    (if pfx ≠ "" then [pfx] else []) ++ [String.intercalate join statements]
  else []

/-- Spec-side serialization of a Statement: the twelve sections, rendered
independently and concatenated in exactly the order the specification
fixes. -/
def specStatementRender (s : Statement) (includePrefix : Bool) : String :=
  String.intercalate "\n" (List.join
    [ sectionBlock (s.pattern.map PatternElem.render)
        (if includePrefix then s.pfx else ""),
      sectionBlock (s.whereParts.map WhereStmt.render),
      sectionBlock s.removeList "REMOVE" ", ",
      sectionBlock (s.onCreateSetList.map QProperty.render) "ON CREATE SET" ", ",
      sectionBlock (s.onMatchSetList.map QProperty.render) "ON MATCH SET" ", ",
      sectionBlock (s.setList.map QProperty.render) "SET" ", ",
      sectionBlock s.deleteList "DELETE" "\n",
      sectionBlock s.detachDeleteList "DETACH DELETE" "\n",
      sectionBlock s.returnList "RETURN" "\n",
      sectionBlock (s.order.map OrderClause.render) "ORDER BY" "\n",
      (match s.skip with
       | some n => if n ≠ 0 then ["SKIP " ++ intRepr n] else []
       | none => []),
      (match s.limit with
       | some n => if n ≠ 0 then ["LIMIT " ++ intRepr n] else []
       | none => []) ])

/-- The serializer's append closure appends exactly the spec-side block. -/
theorem appendSection_eq_block (out statements : List String) (pfx join : String) :
    appendSection out statements pfx join = out ++ sectionBlock statements pfx join := by
  unfold appendSection sectionBlock
  by_cases h : statements.length ≠ 0
  · by_cases hp : pfx ≠ "" <;> simp [h, hp]
  · simp [h]

/-- Claim C7: for every Statement, serialization emits its clause sections in
exactly the fixed order pattern, filter, remove, on-create-set, on-match-set,
set, delete, detach-delete, return, order-by, skip, limit, and a section with
no entries contributes nothing to the serialized output (Statement.render
equals the spec-side renderer built from that order). -/
theorem statement_render_fixed_section_order (s : Statement) (includePrefix : Bool) :
    s.render includePrefix = specStatementRender s includePrefix := by
  unfold Statement.render specStatementRender
  simp only [appendSection_eq_block, List.join_cons, List.join_nil,
    List.append_assoc, List.nil_append, List.append_nil]

/-! ### Claim C1 — batch failure aggregation

The spec says a partial batch failure aggregates every rejection reason.
Neode.batch awaits Promise.allSettled over the dispatched queries, filters
the rejected outcomes, and throws one TransactionError carrying the whole
errorResults list, so every rejection reason — not merely the first — is
present in the single aggregate failure. -/

/-- Claim C1: when a batch of queries runs inside one transaction and one or
more queries are rejected, batch execution fails with a single aggregate
TransactionError whose error list carries the rejection reason of every
rejected query, not merely the first. -/
theorem batch_aggregates_every_rejection {ε α : Type}
    (queries : List (Except ε α)) (e0 : ε) (h : Except.error e0 ∈ queries) :
    Neode.batch queries = Except.error { errors := errorResults queries } ∧
    ∀ e : ε, Except.error e ∈ queries → e ∈ errorResults queries := by
  have hm : e0 ∈ errorResults queries :=
    List.mem_filterMap.mpr ⟨Except.error e0, h, rfl⟩
  constructor
  · unfold Neode.batch
    rw [if_pos (List.length_pos_of_mem hm)]
  · intro e he
    exact List.mem_filterMap.mpr ⟨Except.error e, he, rfl⟩

/-- A batch with two rejected queries, given by its settled outcomes. -/
def c1Queries : List (Except String Nat) :=
  [Except.error "first query failed", Except.error "second query failed"]

/-- Witness for claim C1 at a batch whose first and second queries are both
rejected: the aggregate failure carries both rejection reasons. -/
theorem batch_aggregates_every_rejection_witness :
    (Except.error "first query failed" ∈ c1Queries) ∧
    (Neode.batch c1Queries =
        Except.error { errors := ["first query failed", "second query failed"] } ∧
      ∀ e : String, Except.error e ∈ c1Queries → e ∈ errorResults c1Queries) :=
  ⟨List.mem_cons_self _ _,
   batch_aggregates_every_rejection c1Queries "first query failed"
     (List.mem_cons_self _ _)⟩

end NeodeProof

namespace NeodeProof

/-! ### Claim C10 — an unresolved eager target is swallowed

eagerPattern resolves the declared target name inside a try/catch; a failed
Neode.model lookup leaves the target model undefined, and eagerNode with an
undefined model emits the base projection (wildcard properties, identity and
labels) with no nested eager sub-patterns. -/

/-- A target name with no registered model resolves to an undefined target
model (the catch branch of eagerPattern). -/
theorem eagerTargetModel_unregistered (neode : Neode) (tname : String)
    (h : neode.modelLookup tname = none) :
    eagerTargetModel neode (some tname) = none := by
  simp [eagerTargetModel, Neode.model, h, Except.toOption]

/-- Claim C10: when a relationship's target is a name that is not registered,
eagerPattern raises no error and compiles exactly as if the declaration had
no target at all; and a node projection with an undefined target model is the
plain base projection — wildcard properties, identity marker and label marker
— with no nested eager sub-patterns. -/
theorem eager_missing_target_swallowed :
    (∀ (neode : Neode) (depth : Nat) (alias_ : String) (rel : RelationshipType)
        (tname : String), rel.target = some tname → neode.modelLookup tname = none →
        eagerPattern neode depth alias_ rel =
          eagerPattern neode depth alias_ { rel with target := none }) ∧
    (∀ (neode : Neode) (depth : Nat) (alias_ : String),
        eagerNode neode depth alias_ none =
          "\n" ++ strRepeat "  " (depth * 2) ++ " " ++ alias_ ++ " \x7b " ++
            "\n" ++ strRepeat "  " (depth * 2) ++ strRepeat "  " (depth * 2) ++ ".*" ++
            "\n" ++ strRepeat "  " (depth * 2) ++ strRepeat "  " (depth * 2) ++ "," ++
              EAGER_ID ++ ": elementId(" ++ alias_ ++ ")" ++
            "\n" ++ strRepeat "  " (depth * 2) ++ strRepeat "  " (depth * 2) ++ "," ++
              EAGER_LABELS ++ ": labels(" ++ alias_ ++ ")" ++
            "\n" ++ strRepeat "  " (depth * 2) ++ "\x7d") := by
  constructor
  · intro neode depth alias_ rel tname ht hm
    have hTM : eagerTargetModel neode rel.target = none := by
      rw [ht]; exact eagerTargetModel_unregistered neode tname hm
    have hTM2 : eagerTargetModel neode
        ({ rel with target := none } : RelationshipType).target = none := by
      simp [eagerTargetModel]
    simp only [eagerPattern.eq_def, hTM, hTM2]
  · intro neode depth alias_
    rw [eagerNode.eq_def]

/-- A relationship declaration whose target names an unregistered model. -/
def ghostRel : RelationshipType :=
  RelationshipType.make "knows" "node" "KNOWS" Direction.OUT (some "Ghost")

/-- Witness for claim C10 at a concrete input: an empty registry cannot
resolve the target "Ghost", and the compiled sub-pattern equals the
target-free compilation. -/
theorem eager_missing_target_swallowed_witness :
    eagerPattern { models := [] } 1 "this" ghostRel =
      eagerPattern { models := [] } 1 "this" { ghostRel with target := none } :=
  eager_missing_target_swallowed.1 { models := [] } 1 "this" ghostRel "Ghost" rfl rfl

end NeodeProof

namespace NeodeProof

/-! ### Claim C4 — the eager compiler's depth bound

The nesting measure eagerNestingNode mirrors the recursion of the compiled
projection; the lemmas below bound it by 4 - depth, so the projection
compiled from the service entry point (depth 1) nests at most
MAX_EAGER_DEPTH = 3 levels of eager sub-patterns, for every registry —
cyclic or not. -/

/-- The maximum over a relationship list is bounded by any bound on each
pattern. -/
theorem eagerNestingList_le (neode : Neode) (depth : Nat) (c : Nat)
    (rels : List RelationshipType)
    (h : ∀ rel ∈ rels, eagerNestingPattern neode depth rel ≤ c) :
    eagerNestingList neode depth rels ≤ c := by
  induction rels with
  | nil =>
    rw [eagerNestingList.eq_def]
    exact Nat.zero_le c
  | cons rel rest ih =>
    rw [eagerNestingList.eq_def]
    show max (eagerNestingPattern neode depth rel) (eagerNestingList neode depth rest) ≤ c
    have h1 := h rel (by simp)
    have h2 := ih (fun r hr => h r (by simp [hr]))
    omega

/-- The nesting of a node projection at depth d is at most 4 - d: the depth
guard cuts every eager recursion off at MAX_EAGER_DEPTH. -/
theorem eagerNestingNode_le (neode : Neode) :
    ∀ (k depth : Nat) (model : Option Model), 4 - depth ≤ k →
      eagerNestingNode neode depth model ≤ 4 - depth := by
  intro k
  induction k with
  | zero =>
    intro depth model h
    rw [eagerNestingNode.eq_def]
    cases model with
    | none => simp
    | some m =>
      have hd : ¬ (depth ≤ MAX_EAGER_DEPTH) := by
        simp only [MAX_EAGER_DEPTH]; omega
      simp [hd]
  | succ k ih =>
    intro depth model h
    rw [eagerNestingNode.eq_def]
    cases model with
    | none => simp
    | some m =>
      by_cases hd : depth ≤ MAX_EAGER_DEPTH
      · simp only [hd, if_true]
        apply eagerNestingList_le
        intro rel hrel
        rw [eagerNestingPattern.eq_def]
        have hMAX : MAX_EAGER_DEPTH = 3 := rfl
        by_cases h1 : (rel.type == "node" || rel.type == "nodes") = true
        · simp only [h1, if_true]
          have hih := ih (depth + 1) (eagerTargetModel neode rel.target) (by omega)
          omega
        · simp only [h1, Bool.false_eq_true, if_false]
          by_cases h2 : (rel.type == "relationship" || rel.type == "relationships") = true
          · simp only [h2, if_true]
            have hih := ih (depth + 2) (eagerTargetModel neode rel.target) (by omega)
            omega
          · simp only [h2, Bool.false_eq_true, if_false]
            omega
      · simp only [hd, if_false]
        omega

/-- Claim C4: the eager-fetch compiler inlines eager sub-patterns only while
the depth is at most MAX_EAGER_DEPTH = 3 — beyond the bound a node
projection is compiled exactly as if no model were known, i.e. with no
nested sub-patterns — and the projection compiled from the service entry
point (depth 1) nests at most 3 levels of eager sub-patterns for every
registry and every model, cyclic schemas included. -/
theorem eager_depth_bounded :
    (∀ (neode : Neode) (depth : Nat) (alias_ : String) (m : Model),
        MAX_EAGER_DEPTH < depth →
        eagerNode neode depth alias_ (some m) = eagerNode neode depth alias_ none) ∧
    (∀ (neode : Neode) (m : Model),
        eagerNestingNode neode 1 (some m) ≤ MAX_EAGER_DEPTH) := by
  constructor
  · intro neode depth alias_ m h
    have hd : ¬ (depth ≤ MAX_EAGER_DEPTH) := by omega
    simp only [eagerNode.eq_def, hd, if_false]
  · intro neode m
    have := eagerNestingNode_le neode 3 1 (some m) (by omega)
    simpa [MAX_EAGER_DEPTH] using this

/-- A self-referential model with an always-eager relationship to itself
(the adversarial case the claim singles out). -/
def selfModel : Model := Model.ofSchema "Person"
  { entries := [
      ("name", SchemaEntry.prop (NodeProperty.typeName "string")),
      ("friend", SchemaEntry.rel "node" "KNOWS" Direction.BOTH (some "Person") []
        true CascadeSetting.boolFalse "node")] }

def selfNeode : Neode := { models := [("Person", selfModel)] }

/-- Witness for claim C4 at the self-referential fixture: past the bound the
self-eager model compiles exactly like an unknown model, and the root
projection nests at most 3 levels. -/
theorem eager_depth_bounded_witness :
    eagerNode selfNeode 4 "this" (some selfModel) = eagerNode selfNeode 4 "this" none ∧
    eagerNestingNode selfNeode 1 (some selfModel) ≤ MAX_EAGER_DEPTH :=
  ⟨eager_depth_bounded.1 selfNeode 4 "this" selfModel (by decide),
   eager_depth_bounded.2 selfNeode selfModel⟩

end NeodeProof

namespace NeodeProof

/-! ### Claim C2 — parameter-name generation

_addWhereParameter really does generate collision-free names (the while loop
with suffixes _2, _3, ... always lands on a name not yet in the table — a
pigeonhole argument over params.length + 1 candidates), so consecutive
where calls keep the parameter table duplicate-free.  _convertPropertyMap,
however, registers inline values under the bare alias_key and overwrites:
the claim as stated is refuted by two match calls with the same alias and
key. -/

/-- ASCII digit characters decode their digit. -/
theorem digitChar10_inj {a b : Nat} (ha : a < 10) (hb : b < 10)
    (h : digitChar10 a = digitChar10 b) : a = b := by
  interval_cases a <;> interval_cases b <;> revert h <;> decide

theorem map_digitChar10_inj : ∀ (l1 l2 : List Nat), (∀ d ∈ l1, d < 10) →
    (∀ d ∈ l2, d < 10) → l1.map digitChar10 = l2.map digitChar10 → l1 = l2 := by
  intro l1
  induction l1 with
  | nil =>
    intro l2 _ _ h
    cases l2 with
    | nil => rfl
    | cons b bs => simp at h
  | cons a as ih =>
    intro l2 h1 h2 h
    cases l2 with
    | nil => simp at h
    | cons b bs =>
      simp only [List.map_cons, List.cons.injEq] at h
      have ha := h1 a (by simp)
      have hb := h2 b (by simp)
      have hab := digitChar10_inj ha hb h.1
      subst hab
      have := ih bs (fun d hd => h1 d (by simp [hd])) (fun d hd => h2 d (by simp [hd])) h.2
      simp [this]

/-- Only zero prints as "0". -/
theorem natRepr_eq_zero_str {n : Nat} (h : natRepr n = "0") : n = 0 := by
  by_contra hn
  unfold natRepr at h
  simp only [hn, if_false] at h
  have hd := congrArg String.data h
  have h0 : ("0" : String).data = ['0'] := rfl
  rw [h0] at hd
  have hrev : (Nat.digits 10 n).map digitChar10 = ['0'] := by
    have := congrArg List.reverse hd
    simpa using this
  cases hdig : Nat.digits 10 n with
  | nil =>
    rw [hdig] at hrev
    simp at hrev
  | cons d ds =>
    rw [hdig] at hrev
    simp only [List.map_cons, List.cons.injEq] at hrev
    have hdlt : d < 10 := Nat.digits_lt_base (by norm_num) (by rw [hdig]; simp)
    have hd0 : d = 0 := digitChar10_inj hdlt (by norm_num) hrev.1
    have hds : ds = [] := by simpa using hrev.2
    have := Nat.ofDigits_digits 10 n
    rw [hdig, hd0, hds] at this
    simp [Nat.ofDigits] at this
    exact hn this.symm

/-- Decimal printing is injective. -/
theorem natRepr_inj {m n : Nat} (h : natRepr m = natRepr n) : m = n := by
  by_cases hm : m = 0
  · subst hm
    have h0 : natRepr n = "0" := by rw [← h]; rfl
    exact (natRepr_eq_zero_str h0).symm
  by_cases hn : n = 0
  · subst hn
    have h0 : natRepr m = "0" := by rw [h]; rfl
    exact natRepr_eq_zero_str h0
  · unfold natRepr at h
    simp only [hm, hn, if_false] at h
    have hd := congrArg String.data h
    have hrev := List.reverse_injective hd
    have hmap := map_digitChar10_inj _ _
      (fun d hd => Nat.digits_lt_base (by norm_num) hd)
      (fun d hd => Nat.digits_lt_base (by norm_num) hd) hrev
    have := congrArg (Nat.ofDigits 10) hmap
    rwa [Nat.ofDigits_digits, Nat.ofDigits_digits] at this

/-- The candidate run base, base_2, base_3, ... never repeats a name. -/
theorem candidateName_inj (base : String) {a b : Nat}
    (h : candidateName base a = candidateName base b) : a = b := by
  have hus : ("_" : String).length = 1 := rfl
  unfold candidateName at h
  by_cases h1 : a = 1 <;> by_cases h2 : b = 1
  · omega
  · exfalso
    simp only [h1, if_true, h2, if_false] at h
    have hlen := congrArg String.length h
    simp only [String.length_append, hus] at hlen
    omega
  · exfalso
    simp only [h1, if_false, h2, if_true] at h
    have hlen := congrArg String.length h
    simp only [String.length_append, hus] at hlen
    omega
  · simp only [h1, h2, if_false] at h
    have hd := congrArg String.data h
    simp only [String.data_append, List.append_assoc] at hd
    have hc := List.append_cancel_left (List.append_cancel_left hd)
    have hr : natRepr a = natRepr b := by
      cases hra : natRepr a; cases hrb : natRepr b
      rw [hra, hrb] at hc
      exact congrArg String.mk hc
    exact natRepr_inj hr

/-- A key misses from the table exactly when it is none of the keys. -/
theorem objGet_eq_none_iff (fields : List (String × JVal)) (key : String) :
    objGet fields key = none ↔ key ∉ objKeys fields := by
  induction fields with
  | nil => simp [objGet, objKeys]
  | cons kv rest ih =>
    simp only [objGet, objKeys, List.map_cons, List.mem_cons]
    by_cases hk : kv.1 = key
    · simp [hk]
    · simp only [hk, if_false]
      rw [ih]
      constructor
      · intro hmem hor
        rcases hor with heq | hmem2
        · exact hk heq.symm
        · exact hmem hmem2
      · intro hall hmem2
        exact hall (Or.inr hmem2)

/-- Setting an absent key appends it at the end. -/
theorem objSet_fresh_append (fields : List (String × JVal)) (key : String) (v : JVal)
    (h : objGet fields key = none) : objSet fields key v = fields ++ [(key, v)] := by
  induction fields with
  | nil => simp [objSet]
  | cons kv rest ih =>
    simp only [objGet] at h
    by_cases hk : kv.1 = key
    · simp [hk] at h
    · simp only [objSet, hk, if_false, List.cons_append, List.cons.injEq, true_and]
      exact ih (by simpa [hk] using h)

/-- Setting a present key keeps the key list unchanged. -/
theorem objKeys_objSet_of_mem (fields : List (String × JVal)) (key : String) (v : JVal)
    (h : key ∈ objKeys fields) : objKeys (objSet fields key v) = objKeys fields := by
  induction fields with
  | nil => simp [objKeys] at h
  | cons kv rest ih =>
    by_cases hk : kv.1 = key
    · simp [objSet, hk, objKeys]
    · simp only [objSet, hk, if_false]
      have h2 : key ∈ objKeys rest := by
        simp only [objKeys, List.map_cons, List.mem_cons] at h
        rcases h with heq | hmem
        · exact absurd heq.symm hk
        · exact hmem
      have ih2 := ih h2
      simp only [objKeys, List.map_cons] at ih2 ⊢
      rw [ih2]

/-- Pigeonhole: among params.length + 1 pairwise-distinct candidate names at
least one is not a key of the table. -/
theorem exists_free_candidate (params : List (String × JVal)) (base : String) :
    ∃ j, j < params.length + 1 ∧ objGet params (candidateName base (1 + j)) = none := by
  by_contra hcon
  push_neg at hcon
  have hmem : ∀ j, j ≤ params.length → candidateName base (1 + j) ∈ objKeys params := by
    intro j hj
    have hne := hcon j (by omega)
    by_contra hmem2
    exact hne ((objGet_eq_none_iff _ _).2 hmem2)
  have hcard : ((Finset.range (params.length + 1)).image
      (fun j => candidateName base (1 + j))).card = params.length + 1 := by
    rw [Finset.card_image_of_injOn, Finset.card_range]
    intro x hx y hy hxy
    have := candidateName_inj base hxy
    omega
  have hsub : ((Finset.range (params.length + 1)).image
      (fun j => candidateName base (1 + j))) ⊆ (objKeys params).toFinset := by
    intro s hs
    simp only [Finset.mem_image, Finset.mem_range] at hs
    obtain ⟨j, hj, rfl⟩ := hs
    simpa [List.mem_toFinset] using hmem j (by omega)
  have hle := Finset.card_le_card hsub
  have hlen : (objKeys params).toFinset.card ≤ (objKeys params).length :=
    List.toFinset_card_le _
  have hkl : (objKeys params).length = params.length := by simp [objKeys]
  omega

/-- The while loop lands on a free name as soon as one candidate within the
fuel is free. -/
theorem findFreeParamName_free (params : List (String × JVal)) (base : String) :
    ∀ (fuel attempt : Nat),
      (∃ j, j < fuel ∧ objGet params (candidateName base (attempt + j)) = none) →
      objGet params (findFreeParamName params base fuel attempt) = none := by
  intro fuel
  induction fuel with
  | zero =>
    intro attempt h
    obtain ⟨j, hj, _⟩ := h
    omega
  | succ n ih =>
    intro attempt h
    unfold findFreeParamName
    by_cases hocc : (objGet params (candidateName base attempt)).isSome = true
    · simp only [hocc, if_true]
      apply ih
      obtain ⟨j, hj, hfree⟩ := h
      cases j with
      | zero =>
        rw [Nat.add_zero] at hfree
        rw [hfree] at hocc
        simp at hocc
      | succ j2 =>
        refine ⟨j2, by omega, ?_⟩
        have harith : attempt + 1 + j2 = attempt + (j2 + 1) := by omega
        rw [harith]
        exact hfree
    · simp only [hocc, if_false]
      simpa [Option.not_isSome_iff_eq_none] using hocc

/-- _addWhereParameter picks a name that is not yet a key and appends the
binding at the end of the table. -/
theorem addWhereParameter_fresh (b : Builder) (key : String) (value : JVal) :
    objGet b.params (b.addWhereParameter key value).1 = none ∧
    (b.addWhereParameter key value).2.params =
      b.params ++ [((b.addWhereParameter key value).1, value)] := by
  unfold Builder.addWhereParameter
  simp only []
  have hfree : objGet b.params (findFreeParamName b.params
      ("where_" ++ sanitizeKey key) (b.params.length + 1) 1) = none := by
    apply findFreeParamName_free
    obtain ⟨j, hj, hf⟩ := exists_free_candidate b.params ("where_" ++ sanitizeKey key)
    exact ⟨j, by omega, hf⟩
  exact ⟨hfree, objSet_fresh_append _ _ _ hfree⟩

/-- One where call either leaves the key list unchanged or appends one name
that was not yet a key. -/
theorem where3_keys (b : Builder) (left operator : String) (value : JVal) :
    objKeys (b.where3 left operator value).params = objKeys b.params ∨
    ∃ fresh, fresh ∉ objKeys b.params ∧
      objKeys (b.where3 left operator value).params = objKeys b.params ++ [fresh] := by
  unfold Builder.where3
  by_cases hf : b.failed.isSome = true
  · simp [hf]
  · simp only [hf, Bool.false_eq_true, if_false]
    cases hw : b.whereCur with
    | none => left; rfl
    | some w =>
      by_cases hl : left = ""
      · left; simp [hl]
      · right
        simp only [hl, if_false]
        obtain ⟨hfree, hparams⟩ := addWhereParameter_fresh b left value
        refine ⟨(b.addWhereParameter left value).1, (objGet_eq_none_iff _ _).1 hfree, ?_⟩
        simp only [Builder.addWhereParameter] at hparams ⊢
        rw [hparams]
        have hmem : (b.addWhereParameter left value).1 ∈
            objKeys (b.params ++ [((b.addWhereParameter left value).1, value)]) := by
          simp [objKeys, Builder.addWhereParameter]
        simp only [Builder.addWhereParameter] at hmem
        rw [objKeys_objSet_of_mem _ _ _ hmem]
        simp [objKeys]

/-- One where call preserves a duplicate-free parameter table. -/
theorem where3_keys_nodup (b : Builder) (left operator : String) (value : JVal)
    (h : (objKeys b.params).Nodup) :
    (objKeys (b.where3 left operator value).params).Nodup := by
  rcases where3_keys b left operator value with heq | ⟨fresh, hnot, heq⟩
  · rwa [heq]
  · rw [heq]
    rw [List.nodup_append]
    exact ⟨h, by simp, by simpa using hnot⟩

/-- Claim C2, amended: filter (where) values are registered collision-free —
_addWhereParameter always picks a parameter name not yet in the table (base
where_<sanitized key>, numeric suffix when taken) and appends the binding,
so any sequence of where calls keeps the parameter table duplicate-free
(the inline-property half of the original claim is refuted separately by a
counterexample on _convertPropertyMap). -/
theorem where_parameters_collision_free :
    (∀ (b : Builder) (key : String) (value : JVal),
        objGet b.params (b.addWhereParameter key value).1 = none ∧
        (b.addWhereParameter key value).2.params =
          b.params ++ [((b.addWhereParameter key value).1, value)]) ∧
    (∀ (calls : List (String × String × JVal)) (b : Builder),
        (objKeys b.params).Nodup →
        (objKeys ((calls.foldl (fun acc c => acc.where3 c.1 c.2.1 c.2.2) b)).params).Nodup) := by
  constructor
  · exact addWhereParameter_fresh
  · intro calls
    induction calls with
    | nil => intro b h; simpa using h
    | cons c rest ih =>
      intro b h
      simp only [List.foldl_cons]
      exact ih _ (where3_keys_nodup b c.1 c.2.1 c.2.2 h)

/-- Claim C2, counterexample: two match calls with the same alias and
property key register both inline values under the very same parameter name
n_name — the second overwrites the first instead of receiving a suffixed
fresh name. -/
theorem convertPropertyMap_overwrites :
    (Builder.match' { models := [] }
        (Builder.match' { models := [] } {} (some "n") none [("name", JVal.str "x")])
        (some "n") none [("name", JVal.str "y")]).params =
      [("n_name", JVal.str "y")] := rfl

/-- Two where calls naming the same property on different aliases. -/
def c2Calls : List (String × String × JVal) :=
  [("a.name", ("=", JVal.str "x")), ("b.name", ("=", JVal.str "y"))]

/-- A builder with an open where segment (as after a match call). -/
def c2Builder : Builder := { whereCur := some { pfx := "WHERE" } }

/-- Witness for the amended claim C2 at a concrete input: two where calls on
the same property name of different aliases leave a duplicate-free table. -/
theorem where_parameters_collision_free_witness :
    (objKeys ((c2Calls.foldl (fun acc c => acc.where3 c.1 c.2.1 c.2.2)
      c2Builder).params)).Nodup :=
  where_parameters_collision_free.2 c2Calls c2Builder (by simp [c2Builder, objKeys])

end NeodeProof

namespace NeodeProof

/-! ### Claims C3 and C9 — the Hydrator

Fixtures: a model with a hidden property, a registry holding it, and a row
carrying values for both declared properties. -/

def hiddenModel : Model := Model.ofSchema "Person"
  { entries := [
      ("name", SchemaEntry.prop (NodeProperty.typeName "string")),
      ("secret", SchemaEntry.prop (NodeProperty.schemaObj
        { type := "string", hidden := some true }))] }

def c3Neode : Neode := { models := [("Person", hiddenModel)] }

def c3Record : JVal := JVal.obj
  [("identity", JVal.neoInt 7),
   ("labels", JVal.arr [JVal.str "Person"]),
   ("properties", JVal.obj [("name", JVal.str "a"), ("secret", JVal.str "s")])]

/-- What hydrating c3Record produces. -/
def c3HNode : HNode := HNode.mk hiddenModel 7 ["Person"]
  [("name", JVal.str "a"), ("secret", JVal.str "s")] []

/-- Evaluation of the hydrator on the fixture row (stepping through the
recursion equations; the eager loop is empty for this model). -/
theorem c3_hydrate_eval : hydrateNode c3Neode c3Record none = Except.ok c3HNode := by
  rw [hydrateNode.eq_def]
  show hydrateEagerLoop c3Neode c3Record.objFields
    (HNode.mk hiddenModel 7 ["Person"]
      [("name", JVal.str "a"), ("secret", JVal.str "s")] []) [] = Except.ok c3HNode
  rw [hydrateEagerLoop.eq_def]
  rfl

/-- setEager never touches the property map or the model. -/
theorem setEager_properties (n : HNode) (key : String) (value : HEager) :
    (n.setEager key value).properties = n.properties ∧
    (n.setEager key value).model = n.model := by
  cases n
  simp [HNode.setEager, HNode.properties, HNode.model]

/-- The eager loop only installs eager values: the node it returns keeps the
property map and the model it was given. -/
theorem hydrateEagerLoop_frame (neode : Neode) (recordFields : List (String × JVal)) :
    ∀ (rels : List RelationshipType) (node n : HNode),
      hydrateEagerLoop neode recordFields node rels = Except.ok n →
      n.properties = node.properties ∧ n.model = node.model := by
  intro rels
  induction rels with
  | nil =>
    intro node n hok
    rw [hydrateEagerLoop.eq_def] at hok
    cases hok
    exact ⟨rfl, rfl⟩
  | cons r rest ih =>
    intro node n hok
    rw [hydrateEagerLoop.eq_def] at hok
    simp only [] at hok
    by_cases hr : ((objGet recordFields r.name).getD JVal.null).truthy = true
    · simp only [hr, not_true_eq_false, if_false] at hok
      split at hok
      · exact absurd hok (by simp)
      · rename_i node2 heq
        have h2 := ih node2 n hok
        -- node2 came from one of the shape branches: each is node or a setEager image
        have h3 : node2.properties = node.properties ∧ node2.model = node.model := by
          split at heq
          · -- node shape
            cases hh : hydrateNode neode ((objGet recordFields r.name).getD JVal.null) none with
            | error e => rw [hh] at heq; simp [Except.map] at heq
            | ok child =>
              rw [hh] at heq
              simp only [Except.map, Except.ok.injEq] at heq
              rw [← heq]
              exact setEager_properties node r.name (HEager.node child)
          · split at heq
            · -- nodes shape
              split at heq
              · rename_i vals hfv
                cases hh : hydrateNodesLoop neode vals with
                | error e => rw [hh] at heq; simp [Except.map] at heq
                | ok children =>
                  rw [hh] at heq
                  simp only [Except.map, Except.ok.injEq] at heq
                  rw [← heq]
                  exact setEager_properties node r.name (HEager.nodes children)
              · simp at heq
            · split at heq
              · -- relationship shape
                cases hh : hydrateRelationship neode r
                    ((objGet recordFields r.name).getD JVal.null) node with
                | error e => rw [hh] at heq; simp [Except.map] at heq
                | ok child =>
                  rw [hh] at heq
                  simp only [Except.map, Except.ok.injEq] at heq
                  rw [← heq]
                  exact setEager_properties node r.name (HEager.rel child)
              · split at heq
                · -- relationships shape
                  split at heq
                  · rename_i vals hfv
                    cases hh : hydrateRelsLoop neode r vals node with
                    | error e => rw [hh] at heq; simp [Except.map] at heq
                    | ok children =>
                      rw [hh] at heq
                      simp only [Except.map, Except.ok.injEq] at heq
                      rw [← heq]
                      exact setEager_properties node r.name (HEager.rels children)
                  · simp at heq
                · -- unknown shape: step is .ok node
                  cases heq
                  exact ⟨rfl, rfl⟩
        exact ⟨h2.1.trans h3.1, h2.2.trans h3.2⟩
    · simp only [hr, not_false_eq_true, if_true] at hok
      exact absurd hok (by simp)

end NeodeProof

namespace NeodeProof

/-- Keys of the property-copy fold of hydrateNode: each step appends only a
declared key. -/
theorem copyFold_keys (hd : List (String × JVal)) :
    ∀ (props : List (String × Property)) (acc : List (String × JVal)) (k : String),
      k ∈ objKeys (props.foldl
        (fun acc kv =>
          if objHasOwn hd kv.1 then acc ++ [(kv.1, (objGet hd kv.1).getD .null)]
          else acc) acc) →
      k ∈ objKeys acc ∨ k ∈ props.map (·.1) := by
  intro props
  induction props with
  | nil => intro acc k h; exact Or.inl h
  | cons kv rest ih =>
    intro acc k h
    simp only [List.foldl_cons] at h
    rcases ih _ k h with hacc | hrest
    · by_cases hown : objHasOwn hd kv.1
      · simp only [hown, if_true, objKeys, List.map_append, List.mem_append] at hacc
        rcases hacc with h1 | h2
        · exact Or.inl h1
        · simp at h2
          right
          simp [h2]
      · simp only [hown, Bool.false_eq_true, if_false] at hacc
        exact Or.inl hacc
    · right
      simp only [List.map_cons, List.mem_cons]
      exact Or.inr hrest

/-- Keys after objSet: the new key or an old one. -/
theorem objKeys_objSet_sub (fields : List (String × JVal)) (key k : String) (v : JVal)
    (h : k ∈ objKeys (objSet fields key v)) : k ∈ objKeys fields ∨ k = key := by
  induction fields with
  | nil =>
    simp only [objSet, objKeys, List.map_cons, List.map_nil, List.mem_singleton] at h
    exact Or.inr h
  | cons kv rest ih =>
    by_cases hk : kv.1 = key
    · simp only [objSet, hk, if_true] at h
      simp only [objKeys, List.map_cons, List.mem_cons] at h ⊢
      rcases h with h1 | h2
      · exact Or.inr h1
      · exact Or.inl (Or.inr h2)
    · simp only [objSet, hk, if_false] at h
      simp only [objKeys, List.map_cons, List.mem_cons] at h ⊢
      rcases h with h1 | h2
      · exact Or.inl (Or.inl h1)
      · rcases ih h2 with h3 | h4
        · exact Or.inl (Or.inr h3)
        · exact Or.inr h4

/-- Every key of Entity.properties() has a non-hidden declaration. -/
theorem entityProperties_fold_keys (nprops : List (String × JVal)) :
    ∀ (props : List (String × Property)) (out : List (String × JVal)) (k : String),
      k ∈ objKeys (props.foldl
        (fun output kv =>
          if ¬ kv.2.hidden && objHasOwn nprops kv.1 then
            objSet output kv.1 (valueToJson kv.2 ((objGet nprops kv.1).getD .null))
          else output) out) →
      k ∈ objKeys out ∨ ∃ kv ∈ props, kv.1 = k ∧ kv.2.hidden = false := by
  intro props
  induction props with
  | nil => intro out k h; exact Or.inl h
  | cons kv rest ih =>
    intro out k h
    simp only [List.foldl_cons] at h
    rcases ih _ k h with hout | hrest
    · by_cases hc : (¬ kv.2.hidden && objHasOwn nprops kv.1) = true
      · simp only [hc, if_true] at hout
        rcases objKeys_objSet_sub _ _ _ _ hout with h1 | h2
        · exact Or.inl h1
        · right
          refine ⟨kv, by simp, h2.symm, ?_⟩
          simp only [Bool.and_eq_true] at hc
          simpa using hc.1
      · simp only [hc, Bool.false_eq_true, if_false] at hout
        exact Or.inl hout
    · right
      obtain ⟨kv2, hmem, hk, hh⟩ := hrest
      exact ⟨kv2, by simp [hmem], hk, hh⟩

/-- Claim C3, amended: every key of a hydrated node's property map was
declared in the resolved model (the Hydrator copies only declared keys), and
every key that survives into the serialized entity property map has a
non-hidden declaration — but the hydrated map itself does NOT exclude hidden
keys (see the counterexample); hiding happens at Entity.properties()
serialization time. -/
theorem hydrated_keys_declared :
    (∀ (neode : Neode) (record : JVal) (defArg : Option (Sum Model String)) (n : HNode),
        hydrateNode neode record defArg = Except.ok n →
        ∀ k ∈ objKeys n.properties, k ∈ n.model.properties.map (·.1)) ∧
    (∀ (n : HNode) (k : String), k ∈ objKeys (HNode.entityProperties n) →
        ∃ kv ∈ n.model.properties, kv.1 = k ∧ kv.2.hidden = false) := by
  constructor
  · intro neode record defArg n hok k hk
    rw [hydrateNode.eq_def] at hok
    rcases hrec : record.jget "identity" with _ | v
    · rw [hrec] at hok
      exact absurd hok (by simp)
    · rw [hrec] at hok
      cases v with
      | neoInt i =>
        simp only [] at hok
        split at hok
        · exact absurd hok (by simp)
        · rename_i definition hdef
          have hframe := hydrateEagerLoop_frame neode record.objFields _ _ n hok
          rw [hframe.1] at hk
          rw [hframe.2]
          simp only [HNode.properties, HNode.model] at hk ⊢
          have := copyFold_keys _ definition.properties [] k hk
          simpa [objKeys] using this
      | null => exact absurd hok (by simp)
      | bool b => exact absurd hok (by simp)
      | num m => exact absurd hok (by simp)
      | str s => exact absurd hok (by simp)
      | nodeRef i => exact absurd hok (by simp)
      | obj f => exact absurd hok (by simp)
      | arr xs => exact absurd hok (by simp)
  · intro n k hk
    rcases entityProperties_fold_keys n.properties n.model.properties [] k hk with h0 | h
    · simp [objKeys] at h0
    · exact h

/-- Claim C3, counterexample: the fixture row hydrates successfully and the
hidden-declared key "secret" appears in the hydrated node's property map —
the Hydrator copies hidden keys like any declared key. -/
theorem hidden_key_in_hydrated_map :
    hydrateNode c3Neode c3Record none = Except.ok c3HNode ∧
    "secret" ∈ objKeys c3HNode.properties ∧
    (hiddenModel.properties.find? (fun kv => kv.1 == "secret")).map
      (fun kv => kv.2.hidden) = some true ∧
    "secret" ∉ objKeys (HNode.entityProperties c3HNode) :=
  ⟨c3_hydrate_eval, by decide, rfl, by decide⟩

/-- Witness for the amended claim C3 at the fixture: the copied key "secret"
is declared, and the serialized key "name" has a non-hidden declaration. -/
theorem hydrated_keys_declared_witness :
    ("secret" ∈ hiddenModel.properties.map (fun kv => kv.1)) ∧
    (∃ kv ∈ c3HNode.model.properties, kv.1 = "name" ∧ kv.2.hidden = false) :=
  ⟨by
    have h := hydrated_keys_declared.1 c3Neode c3Record none c3HNode c3_hydrate_eval
      "secret" (by decide)
    simpa [c3HNode, HNode.model] using h,
   hydrated_keys_declared.2 c3HNode "name" (by decide)⟩

end NeodeProof

namespace NeodeProof

/-! ### Claim C9 — hydration failure modes -/

/-- A successful run of the eager loop implies every expected eager field of
the row was truthy (contrapositive: one absent field fails the whole row). -/
theorem hydrateEagerLoop_ok_fields_present (neode : Neode)
    (recordFields : List (String × JVal)) :
    ∀ (rels : List RelationshipType) (node n : HNode),
      hydrateEagerLoop neode recordFields node rels = Except.ok n →
      ∀ e ∈ rels, ((objGet recordFields e.name).getD JVal.null).truthy = true := by
  intro rels
  induction rels with
  | nil => intro node n hok e he; simp at he
  | cons r rest ih =>
    intro node n hok e he
    rw [hydrateEagerLoop.eq_def] at hok
    simp only [] at hok
    by_cases hr : ((objGet recordFields r.name).getD JVal.null).truthy = true
    · rcases List.mem_cons.1 he with heq | h2
      · subst heq; exact hr
      · simp only [hr, not_true_eq_false, if_false] at hok
        split at hok
        · exact absurd hok (by simp)
        · exact ih _ n hok e h2
    · simp only [hr, not_false_eq_true, if_true] at hok
      exact absurd hok (by simp)

/-- Claim C9: hydration of a row fails with an error rather than producing a
defaulted entity when (i) the row carries no integer identity marker, (ii) no
override definition is supplied and no registered model's label set matches
the row's labels, or (iii) the nested field expected for an eager
relationship declaration is absent (falsy) in the row. -/
theorem hydration_failure_modes :
    (∀ (neode : Neode) (record : JVal) (defArg : Option (Sum Model String)),
        (∀ i : Int, record.jget "identity" ≠ some (JVal.neoInt i)) →
        hydrateNode neode record defArg = Except.error "No node identity found in record") ∧
    (∀ (neode : Neode) (record : JVal) (i : Int) (ls : List JVal),
        record.jget "identity" = some (JVal.neoInt i) →
        record.jget "labels" = some (JVal.arr ls) →
        neode.getByLabels (ls.map jvalAsString) = none →
        hydrateNode neode record none = Except.error "No model definition found for labels") ∧
    (∀ (neode : Neode) (record : JVal) (i : Int) (ls : List JVal) (m : Model)
        (e : RelationshipType) (n : HNode),
        record.jget "identity" = some (JVal.neoInt i) →
        record.jget "labels" = some (JVal.arr ls) →
        neode.getByLabels (ls.map jvalAsString) = some m →
        e ∈ m.eager →
        ((objGet record.objFields e.name).getD JVal.null).truthy = false →
        hydrateNode neode record none ≠ Except.ok n) := by
  refine ⟨?_, ?_, ?_⟩
  · intro neode record defArg hno
    rw [hydrateNode.eq_def]
    rcases hrec : record.jget "identity" with _ | v
    · rfl
    · cases v with
      | neoInt i => exact absurd hrec (hno i)
      | null => rfl
      | bool b => rfl
      | num m => rfl
      | str s => rfl
      | nodeRef j => rfl
      | obj f => rfl
      | arr xs => rfl
  · intro neode record i ls hid hlab hgbl
    rw [hydrateNode.eq_def]
    rw [hid]
    simp only [hlab, hgbl]
  · intro neode record i ls m e n hid hlab hgbl hmem hfalsy hok
    rw [hydrateNode.eq_def] at hok
    rw [hid] at hok
    simp only [hlab, hgbl] at hok
    have := hydrateEagerLoop_ok_fields_present neode record.objFields m.eager _ n hok
      e hmem
    rw [hfalsy] at this
    exact absurd this (by simp)

/-- A row with no identity marker. -/
def c9NoIdentity : JVal := JVal.obj [("properties", JVal.obj [])]

/-- A row whose label set matches no registered model. -/
def c9NoModel : JVal := JVal.obj
  [("identity", JVal.neoInt 1), ("labels", JVal.arr [JVal.str "Nope"])]

/-- A row for the self-eager model that lacks the expected eager field. -/
def c9MissingEager : JVal := JVal.obj
  [("identity", JVal.neoInt 1), ("labels", JVal.arr [JVal.str "Person"]),
   ("properties", JVal.obj [("name", JVal.str "a")])]

/-- The self-eager relationship of selfModel. -/
def c9Rel : RelationshipType :=
  RelationshipType.make "friend" "node" "KNOWS" Direction.BOTH (some "Person") []
    true CascadeSetting.boolFalse "node"

/-- Witness for claim C9 at concrete rows: each of the three failure cases
fires on its fixture. -/
theorem hydration_failure_modes_witness :
    hydrateNode { models := [] } c9NoIdentity none =
      Except.error "No node identity found in record" ∧
    hydrateNode { models := [] } c9NoModel none =
      Except.error "No model definition found for labels" ∧
    hydrateNode selfNeode c9MissingEager none ≠ Except.ok c3HNode :=
  ⟨hydration_failure_modes.1 { models := [] } c9NoIdentity none
      (fun i => by simp [c9NoIdentity, JVal.jget, objGet]),
   hydration_failure_modes.2.1 { models := [] } c9NoModel 1 [JVal.str "Nope"]
      rfl rfl rfl,
   hydration_failure_modes.2.2 selfNeode c9MissingEager 1 [JVal.str "Person"]
      selfModel c9Rel c3HNode rfl rfl rfl (by decide) (by decide)⟩

end NeodeProof

namespace NeodeProof

/-! ### Claim C8 — the nested-write property partition

splitProperties sends each declared property present in the bag to exactly
one bucket.  The branch the claim calls "primary or protected" tests
property.protected || property.primary — but the Property constructor never
copies the schema's protected flag, so the protected getter only ever sees
_primary: a property flagged protected (and not primary) falls through to
the SET bucket. -/

/-- objGet after setting a different key. -/
theorem objGet_objSet_ne (fields : List (String × JVal)) (key k : String) (v : JVal)
    (h : k ≠ key) : objGet (objSet fields key v) k = objGet fields k := by
  induction fields with
  | nil =>
    simp only [objSet, objGet]
    rw [if_neg (fun hk => h hk.symm)]
  | cons kv rest ih =>
    simp only [objSet]
    by_cases hk : kv.1 = key
    · subst hk
      simp only [objGet]
      rw [if_neg (fun h2 : kv.1 = k => h h2.symm),
        if_neg (fun h2 : kv.1 = k => h h2.symm)]
    · rw [if_neg hk]
      simp only [objGet]
      by_cases h2 : kv.1 = k
      · rw [if_pos h2, if_pos h2]
      · rw [if_neg h2, if_neg h2]
        exact ih

/-- objGet skips a prefix in which the key is absent. -/
theorem objGet_append_of_none (a b : List (String × JVal)) (k : String)
    (h : objGet a k = none) : objGet (a ++ b) k = objGet b k := by
  induction a with
  | nil => simp
  | cons kv rest ih =>
    simp only [objGet] at h
    by_cases hk : kv.1 = k
    · rw [if_pos hk] at h; cases h
    · rw [if_neg hk] at h
      simp only [List.cons_append, objGet]
      rw [if_neg hk]
      exact ih h

/-- The inline condition of the partition: create mode, or a merge-on key. -/
def inlineCond (mode : Mode) (mergeOn : List String) (p : Property) : Bool :=
  mode.isCreate || mergeOn.contains p.name

/-- The on-create condition: merge mode, not merged on, and the protected
getter or the primary flag set. -/
def onCreateCond (mode : Mode) (mergeOn : List String) (p : Property) : Bool :=
  !mode.isCreate && !mergeOn.contains p.name && (p.protectedGet || p.primary)

/-- The set condition: merge mode, not merged on, not protected-or-primary,
not readonly. -/
def setCond (mode : Mode) (mergeOn : List String) (p : Property) : Bool :=
  !mode.isCreate && !mergeOn.contains p.name && !(p.protectedGet || p.primary) &&
    !p.readonly

/-- One partition bucket as a filter over the declared properties. -/
def specBucket (properties : List (String × JVal)) (cond : Property → Bool)
    (props : List Property) : List (String × JVal) :=
  (props.filter (fun p => objHasOwn properties p.name && cond p)).map
    (fun p => (p.name, valueToCypher p ((objGet properties p.name).getD .null)))


/-- One step of the splitProperties fold (the loop body, named so the
characterization below can rewrite it). -/
def splitStep (mode : Mode) (properties : List (String × JVal))
    (mergeOn : List String) (acc : SplitProps) (property : Property) : SplitProps :=
  let name := property.name
  if ¬ objHasOwn properties name then acc
  else
    let value := valueToCypher property ((objGet properties name).getD .null)
    if mode = .create then { acc with inline := objSet acc.inline name value }
    else if mergeOn.contains name then
      { acc with inline := objSet acc.inline name value }
    else if property.protectedGet || property.primary then
      { acc with onCreate := objSet acc.onCreate name value }
    else if ¬ property.readonly then
      { acc with set := objSet acc.set name value }
    else acc

/-- splitProperties is the fold of splitStep over the declared properties. -/
theorem splitProperties_eq_foldl (mode : Mode) (model : Model)
    (properties : List (String × JVal)) (mergeOn : List String) :
    splitProperties mode model properties mergeOn =
      (model.properties.map (·.2)).foldl (splitStep mode properties mergeOn) {} := rfl

/-- The splitProperties fold, characterized bucket by bucket (the declared
names must be pairwise distinct, which Model construction guarantees since
the properties live in a keyed Map). -/
theorem splitProps_fold (mode : Mode) (properties : List (String × JVal))
    (mergeOn : List String) :
    ∀ (L : List Property) (acc : SplitProps),
      (L.map Property.name).Nodup →
      (∀ q ∈ L, objGet acc.inline q.name = none ∧ objGet acc.onCreate q.name = none ∧
        objGet acc.set q.name = none) →
      L.foldl (splitStep mode properties mergeOn) acc =
      { inline := acc.inline ++ specBucket properties (inlineCond mode mergeOn) L
        onCreate := acc.onCreate ++ specBucket properties (onCreateCond mode mergeOn) L
        onMatch := acc.onMatch
        set := acc.set ++ specBucket properties (setCond mode mergeOn) L } := by
  intro L
  induction L with
  | nil => intro acc _ _; simp [specBucket]
  | cons p rest ih =>
    intro acc hnd hfresh
    simp only [List.map_cons, List.nodup_cons] at hnd
    have hnd2 := hnd.2
    have hpn := hnd.1
    have hqne : ∀ q ∈ rest, q.name ≠ p.name := by
      intro q hq heq
      exact hpn (heq ▸ List.mem_map_of_mem Property.name hq)
    simp only [List.foldl_cons]
    by_cases hown : objHasOwn properties p.name = true
    · obtain ⟨hfi, hfo, hfs⟩ := hfresh p (by simp)
      by_cases hmode : mode = Mode.create
      · -- create: everything present goes inline
        have hstep : splitStep mode properties mergeOn acc p = { acc with inline := acc.inline ++ [(p.name, valueToCypher p ((objGet properties p.name).getD JVal.null))] } := by
          unfold splitStep
          simp only [hown, not_true_eq_false, if_false, hmode, if_true]
          rw [objSet_fresh_append _ _ _ hfi]
        rw [hstep, ih _ hnd2 ?_]
        · simp only [specBucket, List.filter_cons, hown, hmode, inlineCond,
            onCreateCond, setCond, Mode.isCreate, Bool.true_and, Bool.true_or,
            Bool.and_true, Bool.not_true, Bool.false_and, Bool.and_false,
            if_true, Bool.false_eq_true, if_false, List.map_cons, List.append_assoc,
            List.singleton_append]
        · intro q hq
          refine ⟨?_, (hfresh q (by simp [hq])).2.1, (hfresh q (by simp [hq])).2.2⟩
          rw [objGet_append_of_none _ _ _ (hfresh q (by simp [hq])).1]
          simp [objGet, Ne.symm (hqne q hq)]
      · by_cases hcont : mergeOn.contains p.name = true
        · -- merge-on: inline
          have hstep : splitStep mode properties mergeOn acc p = { acc with inline := acc.inline ++ [(p.name, valueToCypher p ((objGet properties p.name).getD JVal.null))] } := by
            unfold splitStep
            simp only [hown, not_true_eq_false, if_false, hmode, hcont, if_true]
            rw [objSet_fresh_append _ _ _ hfi]
          rw [hstep, ih _ hnd2 ?_]
          · cases mode with
            | create => exact absurd rfl hmode
            | merge =>
              simp only [specBucket, List.filter_cons, hown, hcont, inlineCond,
                onCreateCond, setCond, Mode.isCreate, Bool.true_and, Bool.or_true,
                Bool.not_true, Bool.false_and, Bool.and_false, Bool.false_or,
                if_true, Bool.false_eq_true, if_false, List.map_cons,
                List.append_assoc, List.singleton_append, Bool.not_false,
                Bool.true_or, Bool.and_true]
          · intro q hq
            refine ⟨?_, (hfresh q (by simp [hq])).2.1, (hfresh q (by simp [hq])).2.2⟩
            rw [objGet_append_of_none _ _ _ (hfresh q (by simp [hq])).1]
            simp [objGet, Ne.symm (hqne q hq)]
        · by_cases hprot : (p.protectedGet || p.primary) = true
          · -- protected-or-primary: on-create
            have hstep : splitStep mode properties mergeOn acc p = { acc with onCreate := acc.onCreate ++ [(p.name, valueToCypher p ((objGet properties p.name).getD JVal.null))] } := by
              unfold splitStep
              simp only [hown, not_true_eq_false, if_false, hmode, hcont,
                Bool.false_eq_true, hprot, if_true]
              rw [objSet_fresh_append _ _ _ hfo]
            rw [hstep, ih _ hnd2 ?_]
            · cases mode with
              | create => exact absurd rfl hmode
              | merge =>
                simp only [specBucket, List.filter_cons, hown, hcont, hprot,
                  inlineCond, onCreateCond, setCond, Mode.isCreate, Bool.true_and,
                  Bool.not_true, Bool.false_and, Bool.and_false, Bool.false_or,
                  if_true, Bool.false_eq_true, if_false, List.map_cons,
                  List.append_assoc, List.singleton_append, Bool.not_false,
                  Bool.and_true, Bool.true_or]
            · intro q hq
              refine ⟨(hfresh q (by simp [hq])).1, ?_, (hfresh q (by simp [hq])).2.2⟩
              rw [objGet_append_of_none _ _ _ (hfresh q (by simp [hq])).2.1]
              simp [objGet, Ne.symm (hqne q hq)]
          · by_cases hro : p.readonly = true
            · -- readonly: dropped
              have hstep : splitStep mode properties mergeOn acc p = acc := by
                unfold splitStep
                simp only [hown, not_true_eq_false, if_false, hmode, hcont,
                  Bool.false_eq_true, hprot, hro, not_true_eq_false]
              rw [hstep, ih acc hnd2 (fun q hq => hfresh q (by simp [hq]))]
              cases mode with
              | create => exact absurd rfl hmode
              | merge =>
                simp only [specBucket, List.filter_cons, hown, hcont, hprot, hro,
                  inlineCond, onCreateCond, setCond, Mode.isCreate, Bool.true_and,
                  Bool.not_true, Bool.false_and, Bool.and_false, Bool.false_or,
                  Bool.false_eq_true, if_false, Bool.not_false, Bool.and_true]
            · -- plain non-readonly: set
              have hstep : splitStep mode properties mergeOn acc p = { acc with set := acc.set ++ [(p.name, valueToCypher p ((objGet properties p.name).getD JVal.null))] } := by
                unfold splitStep
                simp only [hown, not_true_eq_false, if_false, hmode, hcont,
                  Bool.false_eq_true, hprot, hro, not_false_eq_true, if_true]
                rw [objSet_fresh_append _ _ _ hfs]
              rw [hstep, ih _ hnd2 ?_]
              · cases mode with
                | create => exact absurd rfl hmode
                | merge =>
                  simp only [specBucket, List.filter_cons, hown, hcont, hprot, hro,
                    inlineCond, onCreateCond, setCond, Mode.isCreate, Bool.true_and,
                    Bool.not_true, Bool.false_and, Bool.and_false, Bool.false_or,
                    if_true, Bool.false_eq_true, if_false, List.map_cons,
                    List.append_assoc, List.singleton_append, Bool.not_false,
                    Bool.and_true]
              · intro q hq
                refine ⟨(hfresh q (by simp [hq])).1, (hfresh q (by simp [hq])).2.1, ?_⟩
                rw [objGet_append_of_none _ _ _ (hfresh q (by simp [hq])).2.2]
                simp [objGet, Ne.symm (hqne q hq)]
    · -- property absent from the bag: dropped everywhere
      have hstep : splitStep mode properties mergeOn acc p = acc := by
        unfold splitStep
        simp only [hown, Bool.false_eq_true, not_false_eq_true, if_true]
      rw [hstep, ih acc hnd2 (fun q hq => hfresh q (by simp [hq]))]
      simp [specBucket, List.filter_cons, hown]

end NeodeProof

namespace NeodeProof

/-- Claim C8, amended: splitProperties partitions the declared properties
present in the bag as follows — create mode: inline; merge mode: merge_on
keys inline, properties whose protected getter or primary flag is true into
the on-create bucket, other non-readonly properties into the set bucket
(readonly properties are dropped and the on-match bucket is always empty).
Because the Property constructor never copies the schema's protected flag,
the protected getter equals the primary flag for every constructor-built
property, so "protected" in that branch means primary: a property flagged
protected in the schema but not primary lands under SET, not ON CREATE SET. -/
theorem splitProperties_partition :
    (∀ (mode : Mode) (model : Model) (properties : List (String × JVal))
        (mergeOn : List String),
        ((model.properties.map (·.2)).map Property.name).Nodup →
        splitProperties mode model properties mergeOn =
          { inline := specBucket properties (inlineCond mode mergeOn)
              (model.properties.map (·.2))
            onCreate := specBucket properties (onCreateCond mode mergeOn)
              (model.properties.map (·.2))
            onMatch := []
            set := specBucket properties (setCond mode mergeOn)
              (model.properties.map (·.2)) }) ∧
    (∀ (key : String) (schema : NodeProperty),
        (Property.ofSchema key schema).protectedGet =
          (Property.ofSchema key schema).primary) := by
  constructor
  · intro mode model properties mergeOn hnd
    rw [splitProperties_eq_foldl]
    rw [splitProps_fold mode properties mergeOn _ {} hnd
      (fun q hq => ⟨rfl, rfl, rfl⟩)]
    simp
  · intro key schema
    cases schema with
    | typeName t => rfl
    | schemaObj p =>
      simp only [Property.ofSchema, Property.protectedGet, Property.primary]
      cases p.primary with
      | none => rfl
      | some b => rfl

/-- A model whose only property is flagged protected (and not primary). -/
def protModel : Model := Model.ofSchema "Secretive"
  { entries := [("code", SchemaEntry.prop (NodeProperty.schemaObj
      { type := "string", protectedFlag := some true }))] }

/-- Claim C8, counterexample: in merge mode the protected-flagged,
non-primary property "code" is put in the set bucket — the on-create bucket
stays empty — and the compiled merge statement emits it under SET with
nothing under ON CREATE SET; the schema's protected flag is simply never
read by the Property constructor. -/
theorem protected_property_lands_in_set :
    splitProperties Mode.merge protModel [("code", JVal.str "x")] [] =
      { inline := [], onCreate := [], onMatch := [],
        set := [("code", JVal.str "x")] } ∧
    (protModel.properties.find? (fun kv => kv.1 == "code")).map
      (fun kv => kv.2._schema.protectedFlag) = some (some true) ∧
    ((addNodeToStatement { models := [] } {} "t" protModel [("code", JVal.str "x")]
        ["t"] Mode.merge []).1.current.map
      (fun c => (c.setList.map (fun q => q.property), c.onCreateSetList))) =
      some (["t.code"], []) := by
  refine ⟨rfl, rfl, ?_⟩
  rw [addNodeToStatement.eq_def, addNodeRels.eq_def]
  rfl

/-- Witness for the amended claim C8 at the fixture model: the partition
equality evaluated at protModel in merge mode, and the protected getter of
the constructor-built "code" property coinciding with its primary flag. -/
theorem splitProperties_partition_witness :
    splitProperties Mode.merge protModel [("code", JVal.str "x")] [] =
      { inline := specBucket [("code", JVal.str "x")] (inlineCond Mode.merge [])
          (protModel.properties.map (·.2))
        onCreate := specBucket [("code", JVal.str "x")] (onCreateCond Mode.merge [])
          (protModel.properties.map (·.2))
        onMatch := []
        set := specBucket [("code", JVal.str "x")] (setCond Mode.merge [])
          (protModel.properties.map (·.2)) } ∧
    (Property.ofSchema "code" (NodeProperty.schemaObj
        { type := "string", protectedFlag := some true })).protectedGet =
      (Property.ofSchema "code" (NodeProperty.schemaObj
        { type := "string", protectedFlag := some true })).primary :=
  ⟨splitProperties_partition.1 Mode.merge protModel [("code", JVal.str "x")] []
     (by decide),
   splitProperties_partition.2 "code" (NodeProperty.schemaObj
     { type := "string", protectedFlag := some true })⟩

end NeodeProof

namespace NeodeProof

/-! ### Claim C6 — the create-depth guard

The guard: both relationship writers return their input untouched once the
accumulated alias list outgrows MAX_CREATE_DEPTH.  Bounded growth: the
number of emitted statements of the compiled builder, measured by
statementCount below, is bounded uniformly in the nesting depth of the
payload (shown on an unbounded chain-shaped payload fixture). -/

/-- How many statements the builder has emitted (pushed plus the open one). -/
def statementCount (b : Builder) : Nat :=
  b.statements.length + (if b.current.isSome then 1 else 0)

theorem statementCount_congr (b b' : Builder) (hs : b'.statements = b.statements)
    (hc : b'.current.isSome = b.current.isSome) : statementCount b' = statementCount b := by
  unfold statementCount
  rw [hs, hc]

/-- whereStatement keeps the failure channel clean, the statement list and
the current statement's presence, and leaves a fresh open where segment. -/
theorem whereStatement_effect (b : Builder) (pfx : String) (hok : b.failed = none)
    (hW : b.whereCur.isSome = true → b.current.isSome = true) :
    (b.whereStatement pfx).failed = none ∧
    (b.whereStatement pfx).current.isSome = b.current.isSome ∧
    (b.whereStatement pfx).whereCur.isSome = true ∧
    (b.whereStatement pfx).statements = b.statements := by
  unfold Builder.whereStatement
  rw [hok]
  simp only [Option.isSome_none, Bool.false_eq_true, if_false]
  cases hw : b.whereCur with
  | none => simp
  | some w =>
    cases hc : b.current with
    | none =>
      have := hW (by rw [hw]; rfl)
      rw [hc] at this
      simp at this
    | some c => simp

/-- statement always opens a current statement and grows the count by one. -/
theorem statement_effect (b : Builder) (p : Option String) (hok : b.failed = none) :
    (b.statement p).failed = none ∧
    (b.statement p).current.isSome = true ∧
    (b.statement p).whereCur = b.whereCur ∧
    statementCount (b.statement p) = statementCount b + 1 := by
  unfold Builder.statement
  rw [hok]
  simp only [Option.isSome_none, Bool.false_eq_true, if_false]
  cases hc : b.current with
  | none => simp [statementCount, hc, hok]
  | some c => simp [statementCount, hc, hok]

/-- withCurrent on an open statement only rewrites that statement. -/
theorem withCurrent_effect (b : Builder) (f : Statement → Statement)
    (hok : b.failed = none) (hc : b.current.isSome = true) :
    (b.withCurrent f).failed = none ∧
    (b.withCurrent f).current.isSome = true ∧
    (b.withCurrent f).whereCur = b.whereCur ∧
    (b.withCurrent f).statements = b.statements := by
  unfold Builder.withCurrent
  rw [hok]
  simp only [Option.isSome_none, Bool.false_eq_true, if_false]
  cases hcc : b.current with
  | none => rw [hcc] at hc; simp at hc
  | some c => simp

/-- convertPropertyMap's builder output differs from its input only in the
parameter table. -/
theorem convertPropertyMap_effect (b : Builder) (a : Option String)
    (ps : List (String × JVal)) :
    (b.convertPropertyMap a ps).2.failed = b.failed ∧
    (b.convertPropertyMap a ps).2.current = b.current ∧
    (b.convertPropertyMap a ps).2.whereCur = b.whereCur ∧
    (b.convertPropertyMap a ps).2.statements = b.statements := by
  unfold Builder.convertPropertyMap
  suffices h : ∀ (acc : List QProperty × Builder),
      (ps.foldl (fun acc kv =>
          let propertyAlias :=
            match a with
            | some a2 => if a2 ≠ "" then a2 ++ "_" ++ kv.1 else kv.1
            | none => kv.1
          let p : QProperty := { property := kv.1, paramName := some propertyAlias }
          (acc.1 ++ [p], { acc.2 with params := objSet acc.2.params propertyAlias kv.2 }))
        acc).2.failed = acc.2.failed ∧
      (ps.foldl (fun acc kv =>
          let propertyAlias :=
            match a with
            | some a2 => if a2 ≠ "" then a2 ++ "_" ++ kv.1 else kv.1
            | none => kv.1
          let p : QProperty := { property := kv.1, paramName := some propertyAlias }
          (acc.1 ++ [p], { acc.2 with params := objSet acc.2.params propertyAlias kv.2 }))
        acc).2.current = acc.2.current ∧
      (ps.foldl (fun acc kv =>
          let propertyAlias :=
            match a with
            | some a2 => if a2 ≠ "" then a2 ++ "_" ++ kv.1 else kv.1
            | none => kv.1
          let p : QProperty := { property := kv.1, paramName := some propertyAlias }
          (acc.1 ++ [p], { acc.2 with params := objSet acc.2.params propertyAlias kv.2 }))
        acc).2.whereCur = acc.2.whereCur ∧
      (ps.foldl (fun acc kv =>
          let propertyAlias :=
            match a with
            | some a2 => if a2 ≠ "" then a2 ++ "_" ++ kv.1 else kv.1
            | none => kv.1
          let p : QProperty := { property := kv.1, paramName := some propertyAlias }
          (acc.1 ++ [p], { acc.2 with params := objSet acc.2.params propertyAlias kv.2 }))
        acc).2.statements = acc.2.statements from h ([], b)
  induction ps with
  | nil => intro acc; exact ⟨rfl, rfl, rfl, rfl⟩
  | cons kv rest ih =>
    intro acc
    simp only [List.foldl_cons]
    exact ih _

end NeodeProof

namespace NeodeProof

/-- Builder.create with a resolvable model argument: opens one fresh CREATE
statement (count + 1), keeps the failure channel clean, leaves an open
statement and an open where segment. -/
theorem create_effect (neode : Neode) (b : Builder) (a : String)
    (marg : Option (Sum Model String)) (props : List (String × JVal))
    (mo : Option Model)
    (hok : b.failed = none) (hW : b.whereCur.isSome = true → b.current.isSome = true)
    (hm : resolveModelArg neode marg = Except.ok mo) :
    (Builder.create neode b (some a) marg props).failed = none ∧
    (Builder.create neode b (some a) marg props).current.isSome = true ∧
    (Builder.create neode b (some a) marg props).whereCur.isSome = true ∧
    statementCount (Builder.create neode b (some a) marg props) =
      statementCount b + 1 := by
  unfold Builder.create
  rw [hok]
  simp only [Option.isSome_none, Bool.false_eq_true, if_false, hm]
  obtain ⟨h1f, h1c, h1w, h1s⟩ := whereStatement_effect b "WHERE" hok hW
  obtain ⟨h2f, h2c, h2w, h2n⟩ :=
    statement_effect (b.whereStatement "WHERE") (some "CREATE") h1f
  set b2 := (b.whereStatement "WHERE").statement (some "CREATE") with hb2
  obtain ⟨h3f, h3c, h3w, h3s⟩ := convertPropertyMap_effect b2 (some a) props
  have h3f2 : (b2.convertPropertyMap (some a) props).2.failed = none := by
    rw [h3f]; exact h2f
  have h3c2 : (b2.convertPropertyMap (some a) props).2.current.isSome = true := by
    rw [h3c]; exact h2c
  obtain ⟨h4f, h4c, h4w, h4s⟩ := withCurrent_effect
    (b2.convertPropertyMap (some a) props).2 _ h3f2 h3c2
  refine ⟨h4f, h4c, ?_, ?_⟩
  · rw [h4w, h3w, h2w]
    exact h1w
  · have e1 : statementCount (b.whereStatement "WHERE") = statementCount b :=
      statementCount_congr _ _ h1s h1c
    have e2 : statementCount (b2.convertPropertyMap (some a) props).2 =
        statementCount b2 := statementCount_congr _ _ h3s (by rw [h3c])
    have e3 : statementCount ((b2.convertPropertyMap (some a) props).2.withCurrent _) =
        statementCount (b2.convertPropertyMap (some a) props).2 :=
      statementCount_congr _ _ h4s (by rw [h4c, h3c, h2c])
    rw [e3, e2, h2n, e1]

/-- Builder.merge with a resolvable model argument: same shape as create. -/
theorem merge_effect (neode : Neode) (b : Builder) (a : String)
    (marg : Option (Sum Model String)) (props : List (String × JVal))
    (mo : Option Model)
    (hok : b.failed = none) (hW : b.whereCur.isSome = true → b.current.isSome = true)
    (hm : resolveModelArg neode marg = Except.ok mo) :
    (Builder.merge neode b (some a) marg props).failed = none ∧
    (Builder.merge neode b (some a) marg props).current.isSome = true ∧
    (Builder.merge neode b (some a) marg props).whereCur.isSome = true ∧
    statementCount (Builder.merge neode b (some a) marg props) =
      statementCount b + 1 := by
  unfold Builder.merge
  rw [hok]
  simp only [Option.isSome_none, Bool.false_eq_true, if_false, hm]
  obtain ⟨h1f, h1c, h1w, h1s⟩ := whereStatement_effect b "WHERE" hok hW
  obtain ⟨h2f, h2c, h2w, h2n⟩ :=
    statement_effect (b.whereStatement "WHERE") (some "MERGE") h1f
  set b2 := (b.whereStatement "WHERE").statement (some "MERGE") with hb2
  obtain ⟨h3f, h3c, h3w, h3s⟩ := convertPropertyMap_effect b2 (some a) props
  have h3f2 : (b2.convertPropertyMap (some a) props).2.failed = none := by
    rw [h3f]; exact h2f
  have h3c2 : (b2.convertPropertyMap (some a) props).2.current.isSome = true := by
    rw [h3c]; exact h2c
  obtain ⟨h4f, h4c, h4w, h4s⟩ := withCurrent_effect
    (b2.convertPropertyMap (some a) props).2 _ h3f2 h3c2
  refine ⟨h4f, h4c, ?_, ?_⟩
  · rw [h4w, h3w, h2w]
    exact h1w
  · have e1 : statementCount (b.whereStatement "WHERE") = statementCount b :=
      statementCount_congr _ _ h1s h1c
    have e2 : statementCount (b2.convertPropertyMap (some a) props).2 =
        statementCount b2 := statementCount_congr _ _ h3s (by rw [h3c])
    have e3 : statementCount ((b2.convertPropertyMap (some a) props).2.withCurrent _) =
        statementCount (b2.convertPropertyMap (some a) props).2 :=
      statementCount_congr _ _ h4s (by rw [h4c, h3c, h2c])
    rw [e3, e2, h2n, e1]

/-- Builder.with: flushes into a fresh statement and pushes the WITH line —
count + 2, failure channel clean, statement and where segment open. -/
theorem with_effect (b : Builder) (args : List String)
    (hok : b.failed = none) (hW : b.whereCur.isSome = true → b.current.isSome = true) :
    (b.with' args).failed = none ∧
    (b.with' args).current.isSome = true ∧
    (b.with' args).whereCur.isSome = true ∧
    statementCount (b.with' args) = statementCount b + 2 := by
  unfold Builder.with'
  rw [hok]
  simp only [Option.isSome_none, Bool.false_eq_true, if_false]
  obtain ⟨h1f, h1c, h1w, h1s⟩ := whereStatement_effect b "WHERE" hok hW
  obtain ⟨h2f, h2c, h2w, h2n⟩ := statement_effect (b.whereStatement "WHERE") none h1f
  rw [h2f]
  simp only [Option.isSome_none, Bool.false_eq_true, if_false]
  refine ⟨trivial, h2c, by rw [h2w]; exact h1w, ?_⟩
  have e1 : statementCount (b.whereStatement "WHERE") = statementCount b :=
    statementCount_congr _ _ h1s h1c
  simp only [statementCount, List.length_append, List.length_singleton] at h2n e1 ⊢
  omega

/-- Builder.set1: rewrites the open statement and the parameter table only. -/
theorem set1_effect (b : Builder) (prop : String) (v : JVal) (op : String)
    (hok : b.failed = none) (hc : b.current.isSome = true) :
    (b.set1 prop v op).failed = none ∧
    (b.set1 prop v op).current.isSome = true ∧
    (b.set1 prop v op).whereCur = b.whereCur ∧
    statementCount (b.set1 prop v op) = statementCount b := by
  unfold Builder.set1
  rw [hok]
  simp only [Option.isSome_none, Bool.false_eq_true, if_false]
  obtain ⟨h1, h2, h3, h4⟩ := withCurrent_effect { b with params := objSet b.params ("set_" ++ natRepr b.setCount) v, setCount := b.setCount + 1, failed := none } (fun c => c.set' prop ("set_" ++ natRepr b.setCount) op) rfl hc
  exact ⟨h1, h2, h3, statementCount_congr b _ h4 (by rw [h2, hc])⟩

/-- Builder.onCreateSet1: same frame as set1. -/
theorem onCreateSet1_effect (b : Builder) (prop : String) (v : JVal) (op : String)
    (hok : b.failed = none) (hc : b.current.isSome = true) :
    (b.onCreateSet1 prop v op).failed = none ∧
    (b.onCreateSet1 prop v op).current.isSome = true ∧
    (b.onCreateSet1 prop v op).whereCur = b.whereCur ∧
    statementCount (b.onCreateSet1 prop v op) = statementCount b := by
  unfold Builder.onCreateSet1
  rw [hok]
  simp only [Option.isSome_none, Bool.false_eq_true, if_false]
  obtain ⟨h1, h2, h3, h4⟩ := withCurrent_effect { b with params := objSet b.params ("set_" ++ natRepr b.setCount) v, setCount := b.setCount + 1, failed := none } (fun c => c.onCreateSet' prop ("set_" ++ natRepr b.setCount) op) rfl hc
  exact ⟨h1, h2, h3, statementCount_congr b _ h4 (by rw [h2, hc])⟩

/-- Builder.relationship: rewrites the open statement only. -/
theorem relationship_effect (b : Builder)
    (rel : Option (Sum RelationshipType String)) (dir : Option Direction)
    (a : Option String) (deg : Option String)
    (hok : b.failed = none) (hc : b.current.isSome = true) :
    (b.relationship' rel dir a deg).failed = none ∧
    (b.relationship' rel dir a deg).current.isSome = true ∧
    (b.relationship' rel dir a deg).whereCur = b.whereCur ∧
    statementCount (b.relationship' rel dir a deg) = statementCount b := by
  unfold Builder.relationship'
  obtain ⟨h1, h2, h3, h4⟩ := withCurrent_effect b _ hok hc
  exact ⟨h1, h2, h3, statementCount_congr _ _ h4 (by rw [h2, hc])⟩

/-- Builder.to with no model argument: rewrites the open statement and the
parameter table only. -/
theorem to_effect (neode : Neode) (b : Builder) (a : String)
    (props : List (String × JVal))
    (hok : b.failed = none) (hc : b.current.isSome = true) :
    (Builder.to neode b (some a) none props).failed = none ∧
    (Builder.to neode b (some a) none props).current.isSome = true ∧
    (Builder.to neode b (some a) none props).whereCur = b.whereCur ∧
    statementCount (Builder.to neode b (some a) none props) = statementCount b := by
  unfold Builder.to
  rw [hok]
  simp only [Option.isSome_none, Bool.false_eq_true, if_false, resolveModelArg]
  obtain ⟨h3f, h3c, h3w, h3s⟩ := convertPropertyMap_effect b (some a) props
  have h3f2 : (b.convertPropertyMap (some a) props).2.failed = none := by
    rw [h3f]; exact hok
  have h3c2 : (b.convertPropertyMap (some a) props).2.current.isSome = true := by
    rw [h3c]; exact hc
  obtain ⟨h4f, h4c, h4w, h4s⟩ := withCurrent_effect
    (b.convertPropertyMap (some a) props).2 _ h3f2 h3c2
  refine ⟨h4f, h4c, by rw [h4w, h3w], ?_⟩
  have e2 : statementCount (b.convertPropertyMap (some a) props).2 =
      statementCount b := statementCount_congr _ _ h3s (by rw [h3c])
  have e3 : statementCount ((b.convertPropertyMap (some a) props).2.withCurrent _) =
      statementCount (b.convertPropertyMap (some a) props).2 :=
    statementCount_congr _ _ h4s (by rw [h4c, h3c, hc])
  rw [e3, e2]

end NeodeProof

namespace NeodeProof

/-- In create mode only the inline bucket is ever written. -/
theorem splitProperties_create_rest (model : Model)
    (properties : List (String × JVal)) (mergeOn : List String) :
    (splitProperties Mode.create model properties mergeOn).onCreate = [] ∧
    (splitProperties Mode.create model properties mergeOn).onMatch = [] ∧
    (splitProperties Mode.create model properties mergeOn).set = [] := by
  rw [splitProperties_eq_foldl]
  suffices h : ∀ (L : List Property) (acc : SplitProps),
      (L.foldl (splitStep Mode.create properties mergeOn) acc).onCreate = acc.onCreate ∧
      (L.foldl (splitStep Mode.create properties mergeOn) acc).onMatch = acc.onMatch ∧
      (L.foldl (splitStep Mode.create properties mergeOn) acc).set = acc.set from
    h _ {}
  intro L
  induction L with
  | nil => intro acc; exact ⟨rfl, rfl, rfl⟩
  | cons p rest ih =>
    intro acc
    simp only [List.foldl_cons]
    have hstep : (splitStep Mode.create properties mergeOn acc p).onCreate = acc.onCreate ∧
        (splitStep Mode.create properties mergeOn acc p).onMatch = acc.onMatch ∧
        (splitStep Mode.create properties mergeOn acc p).set = acc.set := by
      unfold splitStep
      by_cases hown : objHasOwn properties p.name = true
      · simp [hown]
      · simp [hown]
    obtain ⟨ha, hb, hc⟩ := ih (splitStep Mode.create properties mergeOn acc p)
    exact ⟨ha.trans hstep.1, hb.trans hstep.2.1, hc.trans hstep.2.2⟩

/-- The chain-payload fixture: a model with one non-eager "node" relationship
to itself and one scalar property. -/
def friendModel : Model := Model.ofSchema "Person"
  { entries := [
      ("name", SchemaEntry.prop (NodeProperty.typeName "string")),
      ("friend", SchemaEntry.rel "node" "KNOWS" Direction.OUT (some "Person") []
        false CascadeSetting.boolFalse "node")] }

def chainNeode6 : Neode := { models := [("Person", friendModel)] }

/-- The relationship object friendModel registers under the key "friend". -/
def chainRel6 : RelationshipType :=
  RelationshipType.make "friend" "node" "KNOWS" Direction.OUT (some "Person") []
    false CascadeSetting.boolFalse "node"

theorem friendModel_relationships :
    friendModel.relationships = [("friend", chainRel6)] := rfl

/-- A payload nesting D levels of "friend" sub-bags. -/
def chainBag : Nat → List (String × JVal)
  | 0 => [("name", JVal.str "leaf")]
  | d + 1 => [("name", JVal.str "node"), ("friend", JVal.obj (chainBag d))]

/-- The Create service's entry call on the chain payload. -/
def compileChain (D : Nat) : Builder × List String :=
  addNodeToStatement chainNeode6 {} ORIGINAL_ALIAS friendModel (chainBag D)
    [ORIGINAL_ALIAS] Mode.create []

/-- Filling defaults does not change a chain bag (both declared keys are
present or defaulted to nothing, and CleanValue passes them through). -/
theorem GDV_chainBag (d : Nat) :
    GenerateDefaultValues chainNeode6 friendModel (chainBag d) = chainBag d := by
  cases d with
  | zero => rfl
  | succ d2 => rfl

theorem chainBag_length_ne_zero (d : Nat) : (chainBag d).length ≠ 0 := by
  cases d <;> simp [chainBag]

theorem chainBag_friend (d : Nat) :
    objGet (chainBag (d + 1)) "friend" = some (JVal.obj (chainBag d)) := rfl

theorem chainBag_no_friend : objHasOwn (chainBag 0) "friend" = false := rfl

/-- The aliases the chain compilation pushes, level by level. -/
def chainAlias6 : Nat → String
  | 0 => ORIGINAL_ALIAS
  | k + 1 => chainAlias6 k ++ "_" ++ "friend" ++ "_node"

def chainAliases6 (k : Nat) : List String := (List.range (k + 1)).map chainAlias6

theorem chainAlias6_length (k : Nat) : (chainAlias6 k).length = 4 + 12 * k := by
  induction k with
  | zero => rfl
  | succ n ih =>
    show (chainAlias6 n ++ "_" ++ "friend" ++ "_node").length = 4 + 12 * (n + 1)
    have h1 : ("_" : String).length = 1 := rfl
    have h2 : ("friend" : String).length = 6 := rfl
    have h3 : ("_node" : String).length = 5 := rfl
    simp only [String.length_append, ih, h1, h2, h3]
    omega

theorem chainAliases6_length (k : Nat) : (chainAliases6 k).length = k + 1 := by
  simp [chainAliases6]

theorem chainAliases6_succ (k : Nat) :
    chainAliases6 (k + 1) = chainAliases6 k ++ [chainAlias6 (k + 1)] := by
  simp [chainAliases6, List.range_succ]

/-- Every alias in the list of the first k + 1 levels is strictly shorter
than the level-(k+1) alias, so the latter is fresh. -/
theorem chainAlias6_fresh (k : Nat) : chainAlias6 (k + 1) ∉ chainAliases6 k := by
  intro hmem
  simp only [chainAliases6, List.mem_map, List.mem_range] at hmem
  obtain ⟨j, hj, heq⟩ := hmem
  have hlen := congrArg String.length heq
  rw [chainAlias6_length, chainAlias6_length] at hlen
  omega

theorem chainAliases6_contains_fresh (k : Nat) :
    (chainAliases6 k).contains (chainAlias6 (k + 1)) = false := by
  simpa using chainAlias6_fresh k

theorem chainAliases6_contains_zero :
    (chainAliases6 0).contains (chainAlias6 0) = true := rfl

end NeodeProof

namespace NeodeProof

theorem chainBag_has_friend (d : Nat) :
    objHasOwn (chainBag (d + 1)) "friend" = true := rfl

theorem chainRel6_target : chainRel6.target = some "Person" := rfl

theorem chainNeode6_model : chainNeode6.model "Person" = Except.ok friendModel := rfl

/-- Compiling the chain payload: the builder never fails, always holds an
open statement, and its statement count stays under a bound that does not
depend on the chain's depth — the alias list grows by one fresh alias per
level, so past MAX_CREATE_DEPTH levels the guard stops all expansion. -/
theorem chain_growth (D : Nat) : ∀ (k : Nat) (b : Builder) (A M : List String),
    b.failed = none →
    (b.whereCur.isSome = true → b.current.isSome = true) →
    (if A.contains (chainAlias6 k) then A else A ++ [chainAlias6 k]) = chainAliases6 k →
    (addNodeToStatement chainNeode6 b (chainAlias6 k) friendModel (chainBag D) A
      Mode.create M).1.failed = none ∧
    (addNodeToStatement chainNeode6 b (chainAlias6 k) friendModel (chainBag D) A
      Mode.create M).1.current.isSome = true ∧
    statementCount (addNodeToStatement chainNeode6 b (chainAlias6 k) friendModel
      (chainBag D) A Mode.create M).1 ≤
      statementCount b + 4 * (101 - (k + 1)) + 3 := by
  induction D with
  | zero =>
    intro k b A M hok hW hA
    obtain ⟨hcf, hcc, hcw, hccount⟩ := create_effect chainNeode6 b (chainAlias6 k)
      (some (Sum.inl friendModel))
      (splitProperties Mode.create friendModel (chainBag 0) M).inline
      (some friendModel) hok hW rfl
    rw [addNodeToStatement.eq_def]
    simp only [hok, Option.isSome_none, Bool.false_eq_true, if_false, hA,
      (splitProperties_create_rest friendModel (chainBag 0) M).1,
      (splitProperties_create_rest friendModel (chainBag 0) M).2.1,
      (splitProperties_create_rest friendModel (chainBag 0) M).2.2,
      List.foldl_nil, friendModel_relationships]
    rw [addNodeRels.eq_def]
    simp only [chainBag_no_friend, Bool.false_eq_true, if_false]
    rw [addNodeRels.eq_def]
    refine ⟨hcf, hcc, ?_⟩
    rw [hccount]
    omega
  | succ d ih =>
    intro k b A M hok hW hA
    obtain ⟨hcf, hcc, hcw, hccount⟩ := create_effect chainNeode6 b (chainAlias6 k)
      (some (Sum.inl friendModel))
      (splitProperties Mode.create friendModel (chainBag (d + 1)) M).inline
      (some friendModel) hok hW rfl
    rw [addNodeToStatement.eq_def]
    simp only [hok, Option.isSome_none, Bool.false_eq_true, if_false, hA,
      (splitProperties_create_rest friendModel (chainBag (d + 1)) M).1,
      (splitProperties_create_rest friendModel (chainBag (d + 1)) M).2.1,
      (splitProperties_create_rest friendModel (chainBag (d + 1)) M).2.2,
      List.foldl_nil, friendModel_relationships]
    rw [addNodeRels.eq_def]
    simp only [chainBag_has_friend, if_true, chainBag_friend, Option.getD_some,
      chainRel6_target, reduceCtorEq, if_false]
    set bC := Builder.create chainNeode6 b (some (chainAlias6 k))
      (some (Sum.inl friendModel))
      (splitProperties Mode.create friendModel (chainBag (d + 1)) M).inline with hbC
    obtain ⟨h2f, h2c, h2w, h2count⟩ :=
      with_effect bC (chainAliases6 k) hcf (fun _ => hcc)
    set b2 := bC.with' (chainAliases6 k) with hb2
    have htyr : (chainRel6.type == "relationship") = false := rfl
    have htyn : (chainRel6.type == "node") = true := rfl
    simp only [htyr, Bool.false_eq_true, if_false, htyn, if_true]
    rw [addNodeRelationshipToStatement.eq_def]
    simp only [h2f, Option.isSome_none, Bool.false_eq_true, if_false,
      chainAliases6_length, MAX_CREATE_DEPTH]
    by_cases hk : k + 1 > 99
    · rw [if_pos hk]
      rw [addNodeRels.eq_def]
      refine ⟨h2f, h2c, ?_⟩
      show statementCount b2 ≤ statementCount b + 4 * (101 - (k + 1)) + 3
      rw [h2count, hccount]
      omega
    · rw [if_neg hk]
      have hne : (chainBag d).length ≠ 0 := chainBag_length_ne_zero d
      simp only [chainRel6_target, chainNeode6_model, GDV_chainBag]
      rw [if_pos hne]
      rw [show chainAlias6 k ++ "_" ++ "friend" ++ "_node" = chainAlias6 (k + 1) from rfl]
      have hA2 : (if (chainAliases6 k).contains (chainAlias6 (k + 1)) then
          chainAliases6 k else chainAliases6 k ++ [chainAlias6 (k + 1)]) =
          chainAliases6 (k + 1) := by
        rw [chainAliases6_contains_fresh]
        simp only [Bool.false_eq_true, if_false]
        exact (chainAliases6_succ k).symm
      obtain ⟨hrf, hrc, hrcount⟩ := ih (k + 1) b2 (chainAliases6 k)
        friendModel.mergeFields h2f (fun _ => h2c) hA2
      set stateB := (addNodeToStatement chainNeode6 b2 (chainAlias6 (k + 1))
        friendModel (chainBag d) (chainAliases6 k) Mode.create
        friendModel.mergeFields).1 with hstateB
      obtain ⟨h3f, h3c, h3w, h3count⟩ := create_effect chainNeode6 stateB
        (chainAlias6 k) none [] none hrf (fun _ => hrc) rfl
      set b3 := Builder.create chainNeode6 stateB (some (chainAlias6 k)) with hb3
      obtain ⟨h4f, h4c, h4w, h4count⟩ := relationship_effect b3
        (some (Sum.inr chainRel6.relationship)) (some chainRel6.direction)
        (some (chainAlias6 k ++ "_" ++ "friend" ++ "_rel")) none h3f h3c
      set b4 := b3.relationship' (some (Sum.inr chainRel6.relationship))
        (some chainRel6.direction) (some (chainAlias6 k ++ "_" ++ "friend" ++ "_rel"))
        none with hb4
      obtain ⟨h5f, h5c, h5w, h5count⟩ := to_effect chainNeode6 b4 (chainAlias6 (k + 1))
        [] h4f h4c
      rw [addNodeRels.eq_def]
      refine ⟨h5f, h5c, ?_⟩
      show statementCount (Builder.to chainNeode6 b4 (some (chainAlias6 (k + 1))) none []) ≤
        statementCount b + 4 * (101 - (k + 1)) + 3
      rw [h5count, h4count, h3count]
      rw [h2count, hccount] at hrcount
      omega

end NeodeProof

namespace NeodeProof

/-- Claim C6: the two relationship writers share the accumulated alias list
as their depth counter and return their input untouched — silently, with no
failure — once it outgrows MAX_CREATE_DEPTH = 99; consequently compiling an
arbitrarily deep chain payload never fails and emits a number of statements
bounded uniformly in the payload depth (the query stops growing once the
guard trips). -/
theorem create_depth_guard :
    (∀ (neode : Neode) (b : Builder) (alias_ relAlias targetAlias : String)
        (rel : RelationshipType) (value : JVal) (aliases : List String) (mode : Mode),
        aliases.length > MAX_CREATE_DEPTH →
        addRelationshipToStatement neode b alias_ relAlias targetAlias rel value
          aliases mode = (b, aliases) ∧
        addNodeRelationshipToStatement neode b alias_ relAlias targetAlias rel value
          aliases mode = (b, aliases)) ∧
    (∀ D : Nat,
        (compileChain D).1.failed = none ∧
        statementCount (compileChain D).1 ≤ 4 * (MAX_CREATE_DEPTH + 1) + 3) := by
  constructor
  · intro neode b alias_ relAlias targetAlias rel value aliases mode hlen
    constructor
    · rw [addRelationshipToStatement.eq_def]
      by_cases hf : b.failed.isSome = true
      · simp [hf]
      · simp [hf, hlen]
    · rw [addNodeRelationshipToStatement.eq_def]
      by_cases hf : b.failed.isSome = true
      · simp [hf]
      · simp [hf, hlen]
  · intro D
    have h := chain_growth D 0 {} [ORIGINAL_ALIAS] [] rfl
      (fun hcon => by simp at hcon) rfl
    have he : compileChain D = addNodeToStatement chainNeode6 {} (chainAlias6 0)
        friendModel (chainBag D) [ORIGINAL_ALIAS] Mode.create [] := rfl
    have hc0 : statementCount {} = 0 := rfl
    rw [he]
    refine ⟨h.1, ?_⟩
    have hb := h.2.2
    rw [hc0] at hb
    simp only [MAX_CREATE_DEPTH]
    omega

/-- Witness for claim C6 at concrete inputs: the guard fires on a
100-element alias list, and a 150-level chain payload compiles cleanly
within the uniform statement bound. -/
theorem create_depth_guard_witness :
    addRelationshipToStatement chainNeode6 {} "this" "r" "t" chainRel6 JVal.null
      (List.replicate 100 "x") Mode.create = ({}, List.replicate 100 "x") ∧
    (compileChain 150).1.failed = none ∧
    statementCount (compileChain 150).1 ≤ 4 * (MAX_CREATE_DEPTH + 1) + 3 :=
  ⟨(create_depth_guard.1 chainNeode6 {} "this" "r" "t" chainRel6 JVal.null
      (List.replicate 100 "x") Mode.create (by simp [MAX_CREATE_DEPTH])).1,
   (create_depth_guard.2 150).1, (create_depth_guard.2 150).2⟩

end NeodeProof

namespace NeodeProof

/-! ### Claim C5 — the cascade-delete compiler on a chain

Fixture: models M, MM, MMM, ... where model i has one cascade=DELETE
relationship "next" to model i+1 (the last model of the chain has none). -/

def mName5 (i : Nat) : String := String.mk (List.replicate (i + 1) 'M')

def chainRel5 (i : Nat) : RelationshipType :=
  RelationshipType.make "next" "node" "NEXT" Direction.OUT (some (mName5 (i + 1))) []
    false CascadeSetting.delete "node"

def chainModel5 (L i : Nat) : Model :=
  Model.ofSchema (mName5 i)
    { entries :=
        if i < L then
          [("next", SchemaEntry.rel "node" "NEXT" Direction.OUT (some (mName5 (i + 1)))
            [] false CascadeSetting.delete "node")]
        else [] }

def chainNeode5 (L : Nat) : Neode :=
  { models := (List.range (L + 1)).map (fun i => (mName5 i, chainModel5 L i)) }

/-- DeleteNode on the root of the chain (toDepth left at its default 10). -/
def deleteChain (L : Nat) : Builder :=
  DeleteNode (chainNeode5 L) (JVal.num 1) (chainModel5 L 0)

/-- The detach-delete entries an emitted statement carries. -/
def istDetach : IStatement → List String
  | IStatement.stmt s => s.detachDeleteList
  | _ => []

/-- The node alias the cascade uses at chain level k. -/
def delAlias : Nat → String
  | 0 => "this"
  | k + 1 => delAlias k ++ "next" ++ "_node"

/-- The accumulated alias list after visiting levels 0..k. -/
def delAliases (k : Nat) : List String := (List.range (k + 1)).map delAlias

/-- The detach-delete run [delAlias m, ..., delAlias k]. -/
def delSeg (k m : Nat) : List String :=
  ((List.range' k (m + 1 - k)).map delAlias).reverse

theorem delAlias_length (k : Nat) : (delAlias k).length = 4 + 9 * k := by
  induction k with
  | zero => rfl
  | succ n ih =>
    show (delAlias n ++ "next" ++ "_node").length = 4 + 9 * (n + 1)
    have h1 : ("next" : String).length = 4 := rfl
    have h2 : ("_node" : String).length = 5 := rfl
    simp only [String.length_append, ih, h1, h2]
    omega

theorem delAlias_inj : ∀ a b : Nat, delAlias a = delAlias b → a = b := by
  intro a b h
  have := congrArg String.length h
  rw [delAlias_length, delAlias_length] at this
  omega

theorem delAliases_length (k : Nat) : (delAliases k).length = k + 1 := by
  simp [delAliases]

theorem delAliases_succ (k : Nat) :
    delAliases (k + 1) = delAliases k ++ [delAlias (k + 1)] := by
  simp [delAliases, List.range_succ]

theorem delSeg_self (m : Nat) : delSeg m m = [delAlias m] := by
  simp [delSeg]

theorem delSeg_step (k m : Nat) (h : k ≤ m) :
    delSeg k m = delSeg (k + 1) m ++ [delAlias k] := by
  unfold delSeg
  have h1 : m + 1 - k = (m - k) + 1 := by omega
  have h2 : m + 1 - (k + 1) = m - k := by omega
  rw [h1, h2, List.range'_succ]
  simp

theorem delSeg_length (k m : Nat) : (delSeg k m).length = m + 1 - k := by
  simp [delSeg]

theorem mName5_inj : ∀ a b : Nat, mName5 a = mName5 b → a = b := by
  intro a b h
  have := congrArg String.length h
  have ha : (mName5 a).length = a + 1 := by
    show (List.replicate (a + 1) 'M').length = a + 1
    simp
  have hb : (mName5 b).length = b + 1 := by
    show (List.replicate (b + 1) 'M').length = b + 1
    simp
  rw [ha, hb] at this
  omega

/-- find? over an index-mapped list picks the pair of the looked-up index
when the keys are injective. -/
theorem find_map_indices (f : Nat → String × Model) (j : Nat) (nm : String)
    (hnm : (f j).1 = nm) :
    ∀ (idxs : List Nat), j ∈ idxs → (∀ a ∈ idxs, (f a).1 = nm → a = j) →
      (idxs.map f).find? (fun kv => kv.1 == nm) = some (f j) := by
  intro idxs
  induction idxs with
  | nil => intro h; simp at h
  | cons a rest ih =>
    intro hmem hinj
    simp only [List.map_cons]
    by_cases ha : ((f a).1 == nm) = true
    · have haj : a = j := hinj a (by simp) (by simpa using ha)
      subst haj
      exact List.find?_cons_of_pos _ ha
    · have hstep : List.find? (fun kv => kv.1 == nm) (f a :: List.map f rest) =
          List.find? (fun kv => kv.1 == nm) (List.map f rest) :=
        List.find?_cons_of_neg _ (by simpa using ha)
      rw [hstep]
      apply ih
      · rcases List.mem_cons.1 hmem with heq | h2
        · exfalso
          subst heq
          exact ha (by simpa using hnm)
        · exact h2
      · intro b hb
        exact hinj b (by simp [hb])

theorem chainNeode5_model (L j : Nat) (hj : j ≤ L) :
    (chainNeode5 L).model (mName5 j) = Except.ok (chainModel5 L j) := by
  unfold Neode.model Neode.modelLookup chainNeode5
  rw [find_map_indices (fun i => (mName5 i, chainModel5 L i)) j (mName5 j) rfl
    (List.range (L + 1)) (by simp; omega)
    (fun a ha hname => mName5_inj a j hname)]
  rfl

theorem chainModel5_relValues (L j : Nat) (hj : j < L) :
    (chainModel5 L j).relValues = [chainRel5 j] := by
  unfold chainModel5
  rw [if_pos hj]
  rfl

theorem chainModel5_rels_length (L j : Nat) (hj : j < L) :
    (chainModel5 L j).relationships.length ≠ 0 := by
  unfold chainModel5
  rw [if_pos hj]
  simp [Model.ofSchema, Model.addRelationship, relMapSet, RelationshipType.make]

theorem chainModel5_rels_last (L j : Nat) (hj : ¬ j < L) :
    (chainModel5 L j).relationships = [] := by
  unfold chainModel5
  rw [if_neg hj]
  rfl

theorem chainRel5_target (j : Nat) : (chainRel5 j).target = some (mName5 (j + 1)) := rfl

theorem chainRel5_cascade (j : Nat) : (chainRel5 j).cascade = CascadeSetting.delete := rfl

end NeodeProof

namespace NeodeProof

/-- optionalMatch on a builder with an open statement and where segment:
pushes the current statement (with its where segment attached), opens a
fresh OPTIONAL MATCH statement on the given alias, and resets the where
segment. -/
theorem optionalMatch_cascade (neode : Neode) (b : Builder) (a : String)
    (c : Statement) (w : WhereStmt)
    (hok : b.failed = none) (hc : b.current = some c) (hw : b.whereCur = some w) :
    Builder.optionalMatch neode b a none =
      { b with
        statements := b.statements ++ [IStatement.stmt (c.where' w)]
        current := some
          { pfx := "OPTIONAL MATCH"
            pattern := [PatternElem.node { alias_ := a }] }
        whereCur := some { pfx := "WHERE" } } := by
  unfold Builder.optionalMatch Builder.whereStatement Builder.statement
    Builder.withCurrent resolveModelArg
  rw [hok, hc, hw]
  simp [Statement.match']

/-- relationship followed by to (with a resolvable name target) on a builder
with an open statement: rewrites the pattern of the open statement, keeping
its detach list, the emitted statements and the where segment. -/
theorem relationship_to_cascade (neode : Neode) (b : Builder) (c : Statement)
    (rel : String) (dir : Direction) (ra ta : String) (tname : String) (m : Model)
    (hok : b.failed = none) (hc : b.current = some c)
    (hm : neode.model tname = Except.ok m) :
    Builder.to neode
      (b.relationship' (some (Sum.inr rel)) (some dir) (some ra) none)
      (some ta) (some (Sum.inr tname)) [] =
      { b with current := some ((c.relationship' (some (Sum.inr rel)) (some dir) (some ra) none).match' { alias_ := ta, model := some (ModelRef.model m) }) } := by
  unfold Builder.to Builder.relationship' Builder.withCurrent resolveModelArg
    Builder.convertPropertyMap
  rw [hok, hc]
  simp [hm, Except.map]

/-- detachDelete appends to the open statement's detach list. -/
theorem detachDelete_cascade (b : Builder) (c : Statement) (args : List String)
    (hok : b.failed = none) (hc : b.current = some c) :
    b.detachDelete args = { b with current := some (c.detachDelete args) } := by
  unfold Builder.detachDelete Builder.withCurrent
  rw [hok, hc]
  simp

end NeodeProof

namespace NeodeProof

/-- The statement one cascade hop leaves open: OPTIONAL MATCH from the
subject alias through the relationship arrow to the freshly aliased,
model-labelled target. -/
def hopStmt (fromAlias relArg : String) (dir : Direction)
    (relAlias nodeAlias : String) (m : Model) : Statement :=
  { pfx := "OPTIONAL MATCH"
    pattern := [PatternElem.node { alias_ := fromAlias },
      PatternElem.rel { relationship := some relArg, direction := some dir, alias_ := some relAlias, traversals := none },
      PatternElem.node { alias_ := nodeAlias, model := some (ModelRef.model m), properties := [] }] }

/-- One cascade hop (optionalMatch, relationship, to): pushes the previous
statement and opens the hop statement. -/
theorem cascade_hop (neode : Neode) (b : Builder) (fromAlias relArg : String)
    (dir : Direction) (relAlias nodeAlias tname : String) (m : Model)
    (c : Statement) (w : WhereStmt)
    (hok : b.failed = none) (hc : b.current = some c) (hw : b.whereCur = some w)
    (hm : neode.model tname = Except.ok m) :
    Builder.to neode
      (Builder.relationship' (Builder.optionalMatch neode b fromAlias none)
        (some (Sum.inr relArg)) (some dir) (some relAlias) none)
      (some nodeAlias) (some (Sum.inr tname)) [] =
    { b with statements := b.statements ++ [IStatement.stmt (c.where' w)], whereCur := some { pfx := "WHERE" }, current := some (hopStmt fromAlias relArg dir relAlias nodeAlias m) } := by
  rw [optionalMatch_cascade neode b fromAlias c w hok hc hw]
  unfold Builder.to Builder.relationship' Builder.withCurrent resolveModelArg
    Builder.convertPropertyMap
  simp [hok, hm, Except.map, hopStmt, Statement.relationship', Statement.match']

theorem chainRel5_name (j : Nat) : (chainRel5 j).name = "next" := rfl

theorem chainRel5_relationship (j : Nat) : (chainRel5 j).relationship = "NEXT" := rfl

theorem chainRel5_direction (j : Nat) : (chainRel5 j).direction = Direction.OUT := rfl

/-- The last chain node: the hop is emitted and the target alias is
detach-deleted, with no recursion (the target model declares no
relationships). -/
theorem cascade_node_leaf (L j : Nat) (b : Builder) (c : Statement) (w : WhereStmt)
    (hjL : j + 1 ≤ L) (hlast : ¬ (j + 1 < L))
    (hok : b.failed = none) (hc : b.current = some c) (hw : b.whereCur = some w)
    (hcd : c.detachDeleteList = []) :
    (10 < j + 1 →
      addCascadeDeleteNode (chainNeode5 L) b (delAlias j) (chainRel5 j)
        (delAliases j) 10 = b) ∧
    (j + 1 ≤ 10 →
      (addCascadeDeleteNode (chainNeode5 L) b (delAlias j) (chainRel5 j)
        (delAliases j) 10).failed = none ∧
      (∃ new,
        (addCascadeDeleteNode (chainNeode5 L) b (delAlias j) (chainRel5 j)
          (delAliases j) 10).statements = b.statements ++ new ∧
        new.length = min L 10 - j ∧
        (∀ s ∈ new, istDetach s = [])) ∧
      (addCascadeDeleteNode (chainNeode5 L) b (delAlias j) (chainRel5 j)
        (delAliases j) 10).whereCur = some { pfx := "WHERE" } ∧
      (∃ cr, (addCascadeDeleteNode (chainNeode5 L) b (delAlias j) (chainRel5 j)
          (delAliases j) 10).current = some cr ∧
        cr.detachDeleteList = delSeg (j + 1) (min L 10))) := by
  constructor
  · intro hguard
    rw [addCascadeDeleteNode.eq_def]
    rw [dif_pos (by rw [delAliases_length]; omega)]
  · intro hle
    rw [addCascadeDeleteNode.eq_def]
    rw [dif_neg (by rw [delAliases_length]; omega)]
    have hres : resolveCascadeTarget (chainNeode5 L) (some (mName5 (j + 1))) =
        Except.ok (some (chainModel5 L (j + 1))) := by
      unfold resolveCascadeTarget
      show Except.map some ((chainNeode5 L).model (mName5 (j + 1))) =
        Except.ok (some (chainModel5 L (j + 1)))
      rw [chainNeode5_model L (j + 1) hjL]
      rfl
    simp only [chainRel5_name, chainRel5_relationship, chainRel5_direction,
      chainRel5_target, Option.map_some', hres]
    rw [show delAlias j ++ "next" ++ "_node" = delAlias (j + 1) from rfl]
    rw [cascade_hop (chainNeode5 L) b (delAlias j) "NEXT" Direction.OUT
      (delAlias j ++ "next" ++ "_rel") (delAlias (j + 1)) (mName5 (j + 1))
      (chainModel5 L (j + 1)) c w hok hc hw (chainNeode5_model L (j + 1) hjL)]
    rw [if_neg (show ¬ ((chainModel5 L (j + 1)).relationships.length ≠ 0) from by
      rw [chainModel5_rels_last L (j + 1) hlast]; simp)]
    rw [detachDelete_cascade { b with statements := b.statements ++ [IStatement.stmt (c.where' w)], whereCur := some { pfx := "WHERE" }, current := some (hopStmt (delAlias j) "NEXT" Direction.OUT (delAlias j ++ "next" ++ "_rel") (delAlias (j + 1)) (chainModel5 L (j + 1))) } (hopStmt (delAlias j) "NEXT" Direction.OUT (delAlias j ++ "next" ++ "_rel") (delAlias (j + 1)) (chainModel5 L (j + 1))) [delAlias (j + 1)] hok rfl]
    refine ⟨hok, ⟨[IStatement.stmt (c.where' w)], rfl, by simp; omega, ?_⟩, rfl, ?_⟩
    · intro s hs
      simp only [List.mem_singleton] at hs
      subst hs
      simp [istDetach, Statement.where', hcd]
    · refine ⟨_, rfl, ?_⟩
      have hmin : min L 10 = j + 1 := by omega
      rw [hmin, delSeg_self]
      simp [Statement.detachDelete, hopStmt]

end NeodeProof

namespace NeodeProof

/-- One cascade node of the chain, any level: the depth guard stops the
whole call once the alias list outgrows 10; below the bound the call emits
one OPTIONAL MATCH hop per remaining level (each pushed statement carrying
no detach entries), keeps the failure channel clean, and leaves the open
statement carrying exactly the detach run of the visited levels. -/
theorem cascade_node (L : Nat) : ∀ (n j : Nat) (b : Builder) (c : Statement)
    (w : WhereStmt),
    L - (j + 1) ≤ n → j + 1 ≤ L →
    b.failed = none → b.current = some c → b.whereCur = some w →
    c.detachDeleteList = [] →
    (10 < j + 1 →
      addCascadeDeleteNode (chainNeode5 L) b (delAlias j) (chainRel5 j)
        (delAliases j) 10 = b) ∧
    (j + 1 ≤ 10 →
      (addCascadeDeleteNode (chainNeode5 L) b (delAlias j) (chainRel5 j)
        (delAliases j) 10).failed = none ∧
      (∃ new,
        (addCascadeDeleteNode (chainNeode5 L) b (delAlias j) (chainRel5 j)
          (delAliases j) 10).statements = b.statements ++ new ∧
        new.length = min L 10 - j ∧
        (∀ s ∈ new, istDetach s = [])) ∧
      (addCascadeDeleteNode (chainNeode5 L) b (delAlias j) (chainRel5 j)
        (delAliases j) 10).whereCur = some { pfx := "WHERE" } ∧
      (∃ cr, (addCascadeDeleteNode (chainNeode5 L) b (delAlias j) (chainRel5 j)
          (delAliases j) 10).current = some cr ∧
        cr.detachDeleteList = delSeg (j + 1) (min L 10))) := by
  intro n
  induction n with
  | zero =>
    intro j b c w hn hjL hok hc hw hcd
    exact cascade_node_leaf L j b c w hjL (by omega) hok hc hw hcd
  | succ n ih =>
    intro j b c w hn hjL hok hc hw hcd
    by_cases hrec : j + 1 < L
    case neg => exact cascade_node_leaf L j b c w hjL hrec hok hc hw hcd
    case pos =>
      constructor
      · intro hguard
        rw [addCascadeDeleteNode.eq_def]
        rw [dif_pos (by rw [delAliases_length]; omega)]
      · intro hle
        rw [addCascadeDeleteNode.eq_def]
        rw [dif_neg (by rw [delAliases_length]; omega)]
        have hres : resolveCascadeTarget (chainNeode5 L) (some (mName5 (j + 1))) =
            Except.ok (some (chainModel5 L (j + 1))) := by
          unfold resolveCascadeTarget
          show Except.map some ((chainNeode5 L).model (mName5 (j + 1))) =
            Except.ok (some (chainModel5 L (j + 1)))
          rw [chainNeode5_model L (j + 1) hjL]
          rfl
        simp only [chainRel5_name, chainRel5_relationship, chainRel5_direction,
          chainRel5_target, Option.map_some', hres]
        rw [show delAlias j ++ "next" ++ "_node" = delAlias (j + 1) from rfl]
        rw [cascade_hop (chainNeode5 L) b (delAlias j) "NEXT" Direction.OUT
          (delAlias j ++ "next" ++ "_rel") (delAlias (j + 1)) (mName5 (j + 1))
          (chainModel5 L (j + 1)) c w hok hc hw (chainNeode5_model L (j + 1) hjL)]
        rw [if_pos (chainModel5_rels_length L (j + 1) hrec)]
        rw [chainModel5_relValues L (j + 1) hrec, ← delAliases_succ j]
        rw [cascadeDeleteLoop.eq_def]
        simp only [chainRel5_cascade, if_true]
        rw [cascadeDeleteLoop.eq_def]
        have ihx := ih (j + 1)
          { b with statements := b.statements ++ [IStatement.stmt (c.where' w)], whereCur := some { pfx := "WHERE" }, current := some (hopStmt (delAlias j) "NEXT" Direction.OUT (delAlias j ++ "next" ++ "_rel") (delAlias (j + 1)) (chainModel5 L (j + 1))) }
          (hopStmt (delAlias j) "NEXT" Direction.OUT (delAlias j ++ "next" ++ "_rel")
            (delAlias (j + 1)) (chainModel5 L (j + 1)))
          { pfx := "WHERE" } (by omega) (by omega) hok rfl rfl rfl
        by_cases hj2 : j + 1 + 1 ≤ 10
        case pos =>
          obtain ⟨b2f, ⟨new1, hstmts, hlen1, hdet1⟩, hwc2, cr2, hc2, hd2⟩ := ihx.2 hj2
          rw [detachDelete_cascade _ cr2 [delAlias (j + 1)] b2f hc2]
          refine ⟨b2f, ⟨IStatement.stmt (c.where' w) :: new1, ?_, ?_, ?_⟩, hwc2, ?_⟩
          · rw [hstmts]
            simp
          · simp only [List.length_cons, hlen1]
            omega
          · intro s hs
            rcases List.mem_cons.1 hs with heq | h2
            · subst heq
              simp [istDetach, Statement.where', hcd]
            · exact hdet1 s h2
          · refine ⟨_, rfl, ?_⟩
            simp only [Statement.detachDelete, hd2]
            exact (delSeg_step (j + 1) (min L 10) (by omega)).symm
        case neg =>
          rw [ihx.1 (by omega)]
          rw [detachDelete_cascade { b with statements := b.statements ++ [IStatement.stmt (c.where' w)], whereCur := some { pfx := "WHERE" }, current := some (hopStmt (delAlias j) "NEXT" Direction.OUT (delAlias j ++ "next" ++ "_rel") (delAlias (j + 1)) (chainModel5 L (j + 1))) } (hopStmt (delAlias j) "NEXT" Direction.OUT (delAlias j ++ "next" ++ "_rel") (delAlias (j + 1)) (chainModel5 L (j + 1))) [delAlias (j + 1)] hok rfl]
          refine ⟨hok, ⟨[IStatement.stmt (c.where' w)], rfl, by simp; omega, ?_⟩, rfl, ?_⟩
          · intro s hs
            simp only [List.mem_singleton] at hs
            subst hs
            simp [istDetach, Statement.where', hcd]
          · refine ⟨_, rfl, ?_⟩
            have hmin : min L 10 = j + 1 := by omega
            rw [hmin, delSeg_self]
            simp [Statement.detachDelete, hopStmt]

end NeodeProof

namespace NeodeProof

/-- The root MATCH statement DeleteNode opens. -/
def rootStmt (L : Nat) : Statement :=
  { pattern := [PatternElem.node { alias_ := "this", model := some (ModelRef.model (chainModel5 L 0)), properties := [] }] }

/-- The root where segment (id filter) DeleteNode builds. -/
def rootWhere : WhereStmt :=
  { pfx := "WHERE", clauses := [WhereClause.whereId false "this" "where_this_id"] }

theorem chainModel5_relValues_zero (L : Nat) (h : ¬ 0 < L) :
    (chainModel5 L 0).relValues = [] := by
  unfold Model.relValues
  rw [chainModel5_rels_last L 0 h]
  rfl

theorem cascadeDeleteLoop_nil (neode : Neode) (b : Builder) (fa : String)
    (al : List String) (td : Nat) : cascadeDeleteLoop neode b fa [] al td = b := by
  rw [cascadeDeleteLoop.eq_def]

/-- Claim C5: on a chain of cascade=DELETE links of length L, DeleteNode
emits one OPTIONAL MATCH statement per visited level — min L 10 of them,
none carrying a detach entry — never fails, and detach-deletes every
accumulated alias in the one open (deepest) statement: the visited levels'
aliases deepest-first plus the root alias "this", min L 10 + 1 pairwise
distinct aliases in all.  A chain of length L ≤ 10 hence deletes exactly
L + 1 aliases, and a longer chain is truncated to the first 10 levels. -/
theorem cascade_chain_deletes (L : Nat) :
    (deleteChain L).failed = none ∧
    (∀ s ∈ (deleteChain L).statements, istDetach s = []) ∧
    (deleteChain L).statements.length = min L 10 ∧
    (∃ cr, (deleteChain L).current = some cr ∧
      cr.detachDeleteList = delSeg 1 (min L 10) ++ ["this"] ∧
      cr.detachDeleteList.length = min L 10 + 1 ∧
      cr.detachDeleteList.Nodup) := by
  unfold deleteChain DeleteNode
  simp only [MAX_EAGER_DEPTH_DELETE]
  by_cases hL : 0 < L
  case neg =>
    rw [chainModel5_relValues_zero L hL]
    rw [cascadeDeleteLoop_nil]
    rw [detachDelete_cascade (Builder.whereId (Builder.match' (chainNeode5 L) {}
      (some "this") (some (Sum.inl (chainModel5 L 0)))) "this" (JVal.num 1))
      (rootStmt L) ["this"] rfl rfl]
    have hL0 : L = 0 := by omega
    subst hL0
    refine ⟨rfl, ?_, rfl, _, rfl, ?_, ?_, ?_⟩
    · intro s hs
      have hempty : ((Builder.match' (chainNeode5 0) {} (some "this")
          (some (Sum.inl (chainModel5 0 0)))).whereId "this" (JVal.num 1)).statements =
          [] := rfl
      rw [hempty] at hs
      simp at hs
    · simp [Statement.detachDelete, rootStmt, delSeg]
    · simp [Statement.detachDelete, rootStmt, delSeg]
    · simp [Statement.detachDelete, rootStmt, delSeg]
  case pos =>
    rw [chainModel5_relValues L 0 hL]
    rw [cascadeDeleteLoop.eq_def]
    simp only [chainRel5_cascade, if_true]
    rw [cascadeDeleteLoop_nil]
    rw [show ("this" : String) = delAlias 0 from rfl]
    set b0 := Builder.whereId (Builder.match' (chainNeode5 L) {} (some (delAlias 0))
      (some (Sum.inl (chainModel5 L 0)))) (delAlias 0) (JVal.num 1) with hb0
    set b2 := addCascadeDeleteNode (chainNeode5 L) b0 (delAlias 0) (chainRel5 0)
      [delAlias 0] 10 with hb2
    have hnode := cascade_node L L 0 b0 (rootStmt L) rootWhere (by omega) (by omega)
      rfl rfl rfl rfl
    obtain ⟨b2f, ⟨new1, hstmts, hlen1, hdet1⟩, hwc2, cr2, hc2, hd2⟩ :=
      hnode.2 (by omega)
    have hb2e : addCascadeDeleteNode (chainNeode5 L) b0 (delAlias 0) (chainRel5 0)
        (delAliases 0) 10 = b2 := rfl
    rw [hb2e] at b2f hstmts hwc2 hc2
    rw [detachDelete_cascade b2 cr2 [delAlias 0] b2f hc2]
    refine ⟨b2f, ?_, ?_, _, rfl, ?_, ?_, ?_⟩
    · intro s hs
      have hs1 : s ∈ b2.statements := hs
      rw [hstmts] at hs1
      have hb0s : b0.statements = [] := rfl
      rw [hb0s, List.nil_append] at hs1
      exact hdet1 s hs1
    · show b2.statements.length = min L 10
      rw [hstmts]
      have hb0s : b0.statements = [] := rfl
      rw [hb0s, List.nil_append, hlen1]
      omega
    · show (cr2.detachDelete [delAlias 0]).detachDeleteList =
        delSeg 1 (min L 10) ++ ["this"]
      simp only [Statement.detachDelete, hd2]
      rfl
    · show (cr2.detachDelete [delAlias 0]).detachDeleteList.length = min L 10 + 1
      simp only [Statement.detachDelete, hd2, List.length_append, delSeg_length,
        List.length_singleton]
      omega
    · show (cr2.detachDelete [delAlias 0]).detachDeleteList.Nodup
      simp only [Statement.detachDelete, hd2]
      rw [List.nodup_append]
      refine ⟨?_, by simp, ?_⟩
      · unfold delSeg
        rw [List.nodup_reverse]
        exact List.Nodup.map (fun a b h => delAlias_inj a b h) (List.nodup_range' _ _)
      · intro x hx hx2
        simp only [List.mem_singleton] at hx2
        subst hx2
        unfold delSeg at hx
        rw [List.mem_reverse] at hx
        simp only [List.mem_map] at hx
        obtain ⟨i, hi, heq⟩ := hx
        have hi0 := delAlias_inj i 0 heq
        subst hi0
        rw [List.mem_range'_1] at hi
        omega

end NeodeProof

namespace NeodeProof

/-- Witness for claim C5 at a chain of length 12: the compilation is
truncated to 10 levels — 10 OPTIONAL MATCH statements and 11 pairwise
distinct detach-deleted aliases. -/
theorem cascade_chain_deletes_witness :
    (deleteChain 12).failed = none ∧
    (∀ s ∈ (deleteChain 12).statements, istDetach s = []) ∧
    (deleteChain 12).statements.length = min 12 10 ∧
    (∃ cr, (deleteChain 12).current = some cr ∧
      cr.detachDeleteList = delSeg 1 (min 12 10) ++ ["this"] ∧
      cr.detachDeleteList.length = min 12 10 + 1 ∧
      cr.detachDeleteList.Nodup) :=
  cascade_chain_deletes 12

end NeodeProof
